import Mathlib

/-!
Verification of the OpenLDAP syncrepl consumer (servers/slapd/syncrepl.c).

This file shallowly embeds the CSN-vector (cookie) algebra, the access-log
modification builder, the multi-provider conflict resolver, the present set
and the cookie-commit step of the syncrepl consumer, and proves the spec's
claims about them.

A CSN is an opaque byte string compared bytewise; we model it as `List Nat`.
A CSN vector ("cookie") is a list of `(sid, csn)` pairs kept sorted by sid.
-/

namespace Syncrepl

/-- A CSN: an opaque totally-ordered byte string (timestamp+counter+sid). -/
abbrev Csn := List Nat

/-- A `(sid, csn)` entry of a cookie vector.  Sids are small integers; the
value `-1` is the reserved "unknown" marker. -/
abbrev SC := Int × Csn

/-- Modelled from the spec: `ber_bvcmp` (liblber) — bytewise (memcmp-style)
comparison of two byte strings, shorter prefix compares less.  The spec says
CSN "comparison is lexicographic over its octets". -/
def bvcmp : Csn → Csn → Int
  | [], [] => 0
  | [], _ :: _ => -1
  | _ :: _, [] => 1
  | a :: as, b :: bs => if a < b then -1 else if b < a then 1 else bvcmp as bs

/-- `memcmp` over the common prefix only (no length tie-break), as used by
the cookie-commit merge in `syncrepl_updateCookie`. -/
def memcmpMin : Csn → Csn → Int
  | _, [] => 0
  | [], _ :: _ => 0
  | a :: as, b :: bs => if a < b then -1 else if b < a then 1 else memcmpMin as bs

/-- The greater of two CSNs, as computed by `merge_state`:
keep the second iff the first compares strictly less. -/
def bvmax (c1 c2 : Csn) : Csn := if bvcmp c1 c2 < 0 then c2 else c1

/-- The sid components of a cookie vector (`sc->sids`). -/
def keys (l : List SC) : List Int := l.map Prod.fst

/-- Cookie vectors keep their sids strictly increasing. -/
def SortedSids (l : List SC) : Prop := (keys l).Pairwise (· < ·)

instance : DecidablePred SortedSids := fun l =>
  inferInstanceAs (Decidable ((keys l).Pairwise (· < ·)))

/-- Linear search for a sid's CSN in a vector (first match), the way the C
loops scan `sids[]`/`ctxcsn[]` in parallel. -/
def lookupSid : List SC → Int → Option Csn
  | [], _ => none
  | (s, c) :: t, q => if q = s then some c else lookupSid t q

/-! ### Basic facts about `bvcmp` and `lookupSid` -/

theorem bvcmp_self (a : Csn) : bvcmp a a = 0 := by
  induction a with
  | nil => rfl
  | cons x xs ih => simp [bvcmp, ih]

theorem bvcmp_eq_zero_iff : ∀ a b : Csn, bvcmp a b = 0 ↔ a = b := by
  intro a
  induction a with
  | nil => intro b; cases b <;> simp [bvcmp]
  | cons x xs ih =>
    intro b
    cases b with
    | nil => simp [bvcmp]
    | cons y ys =>
      by_cases hxy : x < y
      · simp [bvcmp, hxy]
        omega
      · by_cases hyx : y < x
        · simp [bvcmp, hxy, hyx]
          omega
        · have hxe : x = y := by omega
          simp [bvcmp, hxy, hyx, hxe, ih]

theorem bvcmp_swap : ∀ a b : Csn, bvcmp b a = -bvcmp a b := by
  intro a
  induction a with
  | nil => intro b; cases b <;> simp [bvcmp]
  | cons x xs ih =>
    intro b
    cases b with
    | nil => simp [bvcmp]
    | cons y ys =>
      by_cases hxy : x < y
      · have : ¬ y < x := by omega
        simp [bvcmp, hxy, this]
      · by_cases hyx : y < x
        · simp [bvcmp, hxy, hyx]
        · simp [bvcmp, hxy, hyx, ih]

theorem bvcmp_vals : ∀ a b : Csn, bvcmp a b = -1 ∨ bvcmp a b = 0 ∨ bvcmp a b = 1 := by
  intro a
  induction a with
  | nil => intro b; cases b <;> simp [bvcmp]
  | cons x xs ih =>
    intro b
    cases b with
    | nil => simp [bvcmp]
    | cons y ys =>
      by_cases hxy : x < y
      · simp [bvcmp, hxy]
      · by_cases hyx : y < x
        · simp [bvcmp, hxy, hyx]
        · simp [bvcmp, hxy, hyx, ih]

theorem bvmax_comm (c1 c2 : Csn) : bvmax c1 c2 = bvmax c2 c1 := by
  rcases bvcmp_vals c1 c2 with h | h | h
  · have h2 : bvcmp c2 c1 = 1 := by rw [bvcmp_swap c1 c2, h]; norm_num
    simp only [bvmax, h, h2]
    norm_num
  · rw [(bvcmp_eq_zero_iff c1 c2).mp h]
  · have h2 : bvcmp c2 c1 = -1 := by rw [bvcmp_swap c1 c2, h]
    simp only [bvmax, h, h2]
    norm_num

theorem bvcmp_trans_le : ∀ a b c : Csn, bvcmp a b ≤ 0 → bvcmp b c ≤ 0 → bvcmp a c ≤ 0 := by
  intro a
  induction a with
  | nil => intro b c _ _; cases c <;> simp [bvcmp]
  | cons x xs ih =>
    intro b c hab hbc
    cases b with
    | nil => cases c <;> simp [bvcmp] at hab ⊢
    | cons y ys =>
      cases c with
      | nil => simp [bvcmp] at hbc
      | cons z zs =>
        by_cases hxy : x < y
        · by_cases hyz : y < z
          · have hxz : x < z := by omega
            simp [bvcmp, hxz]
          · by_cases hzy : z < y
            · simp [bvcmp, hyz, hzy] at hbc
            · have : y = z := by omega
              subst this
              simp [bvcmp, hxy]
        · by_cases hyx : y < x
          · simp [bvcmp, hxy, hyx] at hab
          · have hxe : x = y := by omega
            subst hxe
            by_cases hxz : x < z
            · simp [bvcmp, hxz]
            · by_cases hzx : z < x
              · simp [bvcmp, hxz, hzx] at hbc
              · simp [bvcmp, hxz, hzx] at hab hbc ⊢
                exact ih ys zs hab hbc

/-- `memcmp` over the common prefix strictly positive forces the full
bytewise comparison to be strictly positive as well. -/
theorem bvcmp_pos_of_memcmpMin_pos : ∀ a b : Csn, 0 < memcmpMin a b → bvcmp b a ≤ 0 ∧ bvcmp b a ≠ 0 := by
  intro a
  induction a with
  | nil => intro b h; cases b <;> simp [memcmpMin] at h
  | cons x xs ih =>
    intro b h
    cases b with
    | nil => simp [bvcmp]
    | cons y ys =>
      by_cases hxy : x < y
      · simp [memcmpMin, hxy] at h
      · by_cases hyx : y < x
        · simp [bvcmp, hyx, (by omega : ¬ x < y)]
        · simp [memcmpMin, hxy, hyx] at h
          have := ih ys h
          simp [bvcmp, hxy, hyx]
          omega

theorem lookupSid_eq_none_iff (l : List SC) (s : Int) :
    lookupSid l s = none ↔ ∀ c, (s, c) ∉ l := by
  induction l with
  | nil => simp [lookupSid]
  | cons p t ih =>
    obtain ⟨s0, c0⟩ := p
    by_cases hs : s = s0
    · subst hs
      simp [lookupSid]
      exact ⟨c0, fun h => absurd rfl h⟩
    · simp [lookupSid, hs, ih]

theorem lookupSid_none_of_lt (l : List SC) (s : Int) (h : ∀ p ∈ l, s < p.1) :
    lookupSid l s = none := by
  induction l with
  | nil => rfl
  | cons p t ih =>
    obtain ⟨s0, c0⟩ := p
    have hs : s ≠ s0 := by have := h (s0, c0) (List.mem_cons_self _ _); omega
    simp only [lookupSid, if_neg hs]
    exact ih fun q hq => h q (List.mem_cons_of_mem _ hq)

theorem sorted_head_lt {s0 : Int} {c0 : Csn} {t : List SC}
    (h : SortedSids ((s0, c0) :: t)) : ∀ p ∈ t, s0 < p.1 := by
  intro p hp
  exact (List.pairwise_cons.mp h).1 p.1 (List.mem_map_of_mem Prod.fst hp)

theorem sorted_tail {p : SC} {t : List SC} (h : SortedSids (p :: t)) : SortedSids t :=
  (List.pairwise_cons.mp h).2

/-! ### `merge_state` (syncrepl.c:789-882)

`merge_state(si, sc1, sc2)` merges the cookie `sc2` into `sc1` and reports
whether anything changed.  The C function takes a fast path when the two
vectors carry identical sid sequences (pointwise CSN max, no `-1` skipping)
and otherwise walks the two sorted vectors in lockstep. -/

/-- Fast path of `merge_state` (syncrepl.c:818-826): identical sid vectors,
pointwise maximum, `changed` when any CSN advanced. -/
def fastMerge : List SC → List SC → List SC × Bool
  | (s1, c1) :: t1, (_, c2) :: t2 =>
    let r := fastMerge t1 t2
    if bvcmp c1 c2 < 0 then ((s1, c2) :: r.1, true) else ((s1, c1) :: r.1, r.2)
  | _, _ => ([], false)

/-- Slow path of `merge_state` (syncrepl.c:834-866): lockstep walk of the two
sorted vectors, skipping sid `-1`, keeping the greater CSN on equal sids,
inserting remote-only sids (setting `changed`), retaining local-only sids. -/
def mergeLoop : List SC → List SC → List SC × Bool
  | [], [] => ([], false)
  | (s1, c1) :: t1, [] =>
    if s1 = -1 then mergeLoop t1 []
    else
      let r := mergeLoop t1 []
      ((s1, c1) :: r.1, r.2)
  | [], (s2, c2) :: t2 =>
    if s2 = -1 then mergeLoop [] t2
    else
      let r := mergeLoop ([] : List SC) t2
      ((s2, c2) :: r.1, true)
  | (s1, c1) :: t1, (s2, c2) :: t2 =>
    if s1 = -1 then mergeLoop t1 ((s2, c2) :: t2)
    else if s1 < s2 then
      let r := mergeLoop t1 ((s2, c2) :: t2)
      ((s1, c1) :: r.1, r.2)
    else if s1 = s2 then
      let r := mergeLoop t1 t2
      if bvcmp c1 c2 < 0 then ((s1, c2) :: r.1, true) else ((s1, c1) :: r.1, r.2)
    else if s2 = -1 then mergeLoop ((s1, c1) :: t1) t2
    else
      let r := mergeLoop ((s1, c1) :: t1) t2
      ((s2, c2) :: r.1, true)
termination_by l1 l2 => l1.length + l2.length

/-- `merge_state` (syncrepl.c:789-882): fast path when the sid sequences are
identical, lockstep merge otherwise.  Returns the merged vector and the
`changed` flag. -/
def merge_state (l1 l2 : List SC) : List SC × Bool :=
  if keys l1 = keys l2 then fastMerge l1 l2 else mergeLoop l1 l2

/-- How a sid present in one or both input vectors must come out of the
lockstep merge: the greater CSN when in both, the present side otherwise. -/
def combineOpt : Option Csn → Option Csn → Option Csn
  | some c1, some c2 => some (bvmax c1 c2)
  | some c1, none => some c1
  | none, some c2 => some c2
  | none, none => none

theorem mergeLoop_lookup :
    ∀ l1 l2 : List SC, SortedSids l1 → SortedSids l2 → ∀ s : Int,
      lookupSid (mergeLoop l1 l2).1 s =
        if s = -1 then none else combineOpt (lookupSid l1 s) (lookupSid l2 s) := by
  intro l1 l2
  induction l1, l2 using mergeLoop.induct with
  | case1 =>
    intro _ _ s
    by_cases hs : s = -1 <;> simp [mergeLoop, lookupSid, combineOpt, hs]
  | case2 c1 t1 ih =>
    intro h1 h2 s
    rw [show mergeLoop ((-1, c1) :: t1) [] = mergeLoop t1 [] from by simp [mergeLoop]]
    rw [ih (sorted_tail h1) h2 s]
    by_cases hs : s = -1 <;> simp [lookupSid, hs]
  | case3 s1 c1 t1 hneg ih =>
    intro h1 h2 s
    rw [show mergeLoop ((s1, c1) :: t1) [] =
        ((s1, c1) :: (mergeLoop t1 []).1, (mergeLoop t1 []).2) from by simp [mergeLoop, hneg]]
    by_cases hs : s = s1
    · subst hs
      simp [lookupSid, hneg, combineOpt]
    · simp only [lookupSid, if_neg hs]
      rw [ih (sorted_tail h1) h2 s]
      simp [lookupSid, hs]
  | case4 c2 t2 ih =>
    intro h1 h2 s
    rw [show mergeLoop [] ((-1, c2) :: t2) = mergeLoop [] t2 from by simp [mergeLoop]]
    rw [ih h1 (sorted_tail h2) s]
    by_cases hs : s = -1 <;> simp [lookupSid, hs]
  | case5 s2 c2 t2 hneg ih =>
    intro h1 h2 s
    rw [show mergeLoop [] ((s2, c2) :: t2) =
        ((s2, c2) :: (mergeLoop [] t2).1, true) from by simp [mergeLoop, hneg]]
    by_cases hs : s = s2
    · subst hs
      simp [lookupSid, hneg, combineOpt]
    · simp only [lookupSid, if_neg hs]
      rw [ih h1 (sorted_tail h2) s]
      simp [lookupSid, hs]
  | case6 c1 t1 s2 c2 t2 ih =>
    intro h1 h2 s
    rw [show mergeLoop ((-1, c1) :: t1) ((s2, c2) :: t2) = mergeLoop t1 ((s2, c2) :: t2)
        from by simp [mergeLoop]]
    rw [ih (sorted_tail h1) h2 s]
    by_cases hs : s = -1 <;> simp [lookupSid, hs]
  | case7 s1 c1 t1 s2 c2 t2 hneg hlt ih =>
    intro h1 h2 s
    rw [show mergeLoop ((s1, c1) :: t1) ((s2, c2) :: t2) =
        ((s1, c1) :: (mergeLoop t1 ((s2, c2) :: t2)).1, (mergeLoop t1 ((s2, c2) :: t2)).2)
        from by simp [mergeLoop, hneg, hlt]]
    by_cases hs : s = s1
    · subst hs
      have hnone : lookupSid ((s2, c2) :: t2) s = none := by
        apply lookupSid_none_of_lt
        intro p hp
        rcases List.mem_cons.mp hp with h | h
        · rw [h]; exact hlt
        · have := sorted_head_lt h2 p h
          omega
      rw [hnone]
      simp [lookupSid, hneg, combineOpt]
    · simp only [lookupSid, if_neg hs]
      rw [ih (sorted_tail h1) h2 s]
      simp [lookupSid, hs]
  | case8 c1 t1 s2 c2 t2 hcmp hneg hlt ih =>
    intro h1 h2 s
    rw [show mergeLoop ((s2, c1) :: t1) ((s2, c2) :: t2) =
        ((s2, c2) :: (mergeLoop t1 t2).1, true) from by simp [mergeLoop, hneg, hcmp]]
    by_cases hs : s = s2
    · subst hs
      simp [lookupSid, hneg, combineOpt, bvmax, hcmp]
    · simp only [lookupSid, if_neg hs]
      rw [ih (sorted_tail h1) (sorted_tail h2) s]
  | case9 c1 t1 s2 c2 t2 hcmp hneg hlt ih =>
    intro h1 h2 s
    rw [show mergeLoop ((s2, c1) :: t1) ((s2, c2) :: t2) =
        ((s2, c1) :: (mergeLoop t1 t2).1, (mergeLoop t1 t2).2)
        from by simp [mergeLoop, hneg, hcmp]]
    by_cases hs : s = s2
    · subst hs
      simp [lookupSid, hneg, combineOpt, bvmax, hcmp]
    · simp only [lookupSid, if_neg hs]
      rw [ih (sorted_tail h1) (sorted_tail h2) s]
  | case10 s1 c1 t1 c2 t2 hneg hlt hneg2 ih =>
    intro h1 h2 s
    rw [show mergeLoop ((s1, c1) :: t1) ((-1, c2) :: t2) = mergeLoop ((s1, c1) :: t1) t2
        from by simp [mergeLoop, hneg, hlt]]
    rw [ih h1 (sorted_tail h2) s]
    by_cases hs : s = -1 <;> simp [lookupSid, hs]
  | case11 s1 c1 t1 s2 c2 t2 hneg hlt heq hneg2 ih =>
    intro h1 h2 s
    rw [show mergeLoop ((s1, c1) :: t1) ((s2, c2) :: t2) =
        ((s2, c2) :: (mergeLoop ((s1, c1) :: t1) t2).1, true)
        from by simp [mergeLoop, hneg, hlt, heq, hneg2]]
    have hs2s1 : s2 < s1 := by
      rcases lt_trichotomy s1 s2 with h | h | h
      · exact absurd h hlt
      · exact absurd h heq
      · exact h
    by_cases hs : s = s2
    · subst hs
      have hnone : lookupSid ((s1, c1) :: t1) s = none := by
        apply lookupSid_none_of_lt
        intro p hp
        rcases List.mem_cons.mp hp with h | h
        · rw [h]; exact hs2s1
        · have := sorted_head_lt h1 p h
          omega
      rw [hnone]
      simp [lookupSid, hneg2, combineOpt]
    · simp only [lookupSid, if_neg hs]
      rw [ih h1 (sorted_tail h2) s]
      simp [lookupSid, hs]

/-- A sid `s` witnesses a change when merging `l2` into `l1`: either both
vectors carry `s` and `l2`'s CSN is strictly greater (a CSN was advanced),
or only `l2` carries `s` (a sid was inserted from the remote vector). -/
def advAt (l1 l2 : List SC) (s : Int) : Prop :=
  s ≠ -1 ∧
    ((∃ c1 c2, lookupSid l1 s = some c1 ∧ lookupSid l2 s = some c2 ∧ bvcmp c1 c2 < 0) ∨
      (lookupSid l1 s = none ∧ lookupSid l2 s ≠ none))

theorem advAt_nil_right (l1 : List SC) (s : Int) : ¬ advAt l1 [] s := by
  rintro ⟨-, h | h⟩
  · obtain ⟨c1, c2, -, h, -⟩ := h
    simp [lookupSid] at h
  · exact h.2 rfl

theorem advAt_cons_irrelevant_left {s0 : Int} {c0 : Csn} {t1 l2 : List SC} {s : Int}
    (hs : s ≠ s0) : advAt ((s0, c0) :: t1) l2 s ↔ advAt t1 l2 s := by
  unfold advAt
  rw [show lookupSid ((s0, c0) :: t1) s = lookupSid t1 s from by simp [lookupSid, hs]]

theorem mergeLoop_changed :
    ∀ l1 l2 : List SC, SortedSids l1 → SortedSids l2 →
      ((mergeLoop l1 l2).2 = true ↔ ∃ s, advAt l1 l2 s) := by
  intro l1 l2
  induction l1, l2 using mergeLoop.induct with
  | case1 =>
    intro _ _
    constructor
    · intro h; simp [mergeLoop] at h
    · rintro ⟨s, hs⟩; exact absurd hs (advAt_nil_right [] s)
  | case2 c1 t1 ih =>
    intro h1 h2
    rw [show mergeLoop ((-1, c1) :: t1) [] = mergeLoop t1 [] from by simp [mergeLoop]]
    rw [ih (sorted_tail h1) h2]
    constructor
    · rintro ⟨s, hs⟩; exact absurd hs (advAt_nil_right t1 s)
    · rintro ⟨s, hs⟩; exact absurd hs (advAt_nil_right _ s)
  | case3 s1 c1 t1 hneg ih =>
    intro h1 h2
    rw [show mergeLoop ((s1, c1) :: t1) [] =
        ((s1, c1) :: (mergeLoop t1 []).1, (mergeLoop t1 []).2) from by simp [mergeLoop, hneg]]
    simp only
    rw [ih (sorted_tail h1) h2]
    constructor
    · rintro ⟨s, hs⟩; exact absurd hs (advAt_nil_right t1 s)
    · rintro ⟨s, hs⟩; exact absurd hs (advAt_nil_right _ s)
  | case4 c2 t2 ih =>
    intro h1 h2
    rw [show mergeLoop [] ((-1, c2) :: t2) = mergeLoop [] t2 from by simp [mergeLoop]]
    rw [ih h1 (sorted_tail h2)]
    apply exists_congr
    intro s
    unfold advAt
    by_cases hs : s = -1
    · simp [hs]
    · rw [show lookupSid ((-1, c2) :: t2) s = lookupSid t2 s from by simp [lookupSid, hs]]
  | case5 s2 c2 t2 hneg ih =>
    intro h1 h2
    rw [show mergeLoop [] ((s2, c2) :: t2) =
        ((s2, c2) :: (mergeLoop [] t2).1, true) from by simp [mergeLoop, hneg]]
    simp only [true_iff]
    refine ⟨s2, hneg, Or.inr ⟨rfl, ?_⟩⟩
    simp [lookupSid]
  | case6 c1 t1 s2 c2 t2 ih =>
    intro h1 h2
    rw [show mergeLoop ((-1, c1) :: t1) ((s2, c2) :: t2) = mergeLoop t1 ((s2, c2) :: t2)
        from by simp [mergeLoop]]
    rw [ih (sorted_tail h1) h2]
    apply exists_congr
    intro s
    by_cases hs : s = -1
    · unfold advAt; simp [hs]
    · exact (advAt_cons_irrelevant_left hs).symm
  | case7 s1 c1 t1 s2 c2 t2 hneg hlt ih =>
    intro h1 h2
    rw [show mergeLoop ((s1, c1) :: t1) ((s2, c2) :: t2) =
        ((s1, c1) :: (mergeLoop t1 ((s2, c2) :: t2)).1, (mergeLoop t1 ((s2, c2) :: t2)).2)
        from by simp [mergeLoop, hneg, hlt]]
    simp only
    rw [ih (sorted_tail h1) h2]
    have hnone2 : lookupSid ((s2, c2) :: t2) s1 = none := by
      apply lookupSid_none_of_lt
      intro p hp
      rcases List.mem_cons.mp hp with h | h
      · rw [h]; exact hlt
      · have := sorted_head_lt h2 p h
        omega
    apply exists_congr
    intro s
    by_cases hs : s = s1
    · subst hs
      constructor
      · rintro ⟨hs1, h | h⟩
        · obtain ⟨d1, d2, -, hl, -⟩ := h
          rw [hnone2] at hl; exact absurd hl (by simp)
        · exact absurd hnone2 h.2
      · rintro ⟨hs1, h | h⟩
        · obtain ⟨d1, d2, -, hl, -⟩ := h
          rw [hnone2] at hl; exact absurd hl (by simp)
        · exact absurd hnone2 h.2
    · exact (advAt_cons_irrelevant_left hs).symm
  | case8 c1 t1 s2 c2 t2 hcmp hneg hlt ih =>
    intro h1 h2
    rw [show mergeLoop ((s2, c1) :: t1) ((s2, c2) :: t2) =
        ((s2, c2) :: (mergeLoop t1 t2).1, true) from by simp [mergeLoop, hneg, hcmp]]
    simp only [true_iff]
    refine ⟨s2, hneg, Or.inl ⟨c1, c2, ?_, ?_, hcmp⟩⟩ <;> simp [lookupSid]
  | case9 c1 t1 s2 c2 t2 hcmp hneg hlt ih =>
    intro h1 h2
    rw [show mergeLoop ((s2, c1) :: t1) ((s2, c2) :: t2) =
        ((s2, c1) :: (mergeLoop t1 t2).1, (mergeLoop t1 t2).2)
        from by simp [mergeLoop, hneg, hcmp]]
    simp only
    rw [ih (sorted_tail h1) (sorted_tail h2)]
    have ht1 : lookupSid t1 s2 = none :=
      lookupSid_none_of_lt _ _ (sorted_head_lt h1)
    have ht2 : lookupSid t2 s2 = none :=
      lookupSid_none_of_lt _ _ (sorted_head_lt h2)
    apply exists_congr
    intro s
    by_cases hs : s = s2
    · subst hs
      constructor
      · rintro ⟨hs1, ⟨d1, d2, hl1, hl2, hd⟩ | ⟨hA, hB⟩⟩
        · rw [ht1] at hl1
          exact absurd hl1 (by simp)
        · exact absurd ht2 hB
      · rintro ⟨hs1, ⟨d1, d2, hl1, hl2, hd⟩ | ⟨hA, hB⟩⟩
        · simp [lookupSid] at hl1 hl2
          rw [← hl1, ← hl2] at hd
          exact absurd hd hcmp
        · simp [lookupSid] at hA
    · rw [advAt_cons_irrelevant_left hs]
      unfold advAt
      rw [show lookupSid ((s2, c2) :: t2) s = lookupSid t2 s from by simp [lookupSid, hs]]
  | case10 s1 c1 t1 c2 t2 hneg hlt hneg2 ih =>
    intro h1 h2
    rw [show mergeLoop ((s1, c1) :: t1) ((-1, c2) :: t2) = mergeLoop ((s1, c1) :: t1) t2
        from by simp [mergeLoop, hneg, hlt]]
    rw [ih h1 (sorted_tail h2)]
    apply exists_congr
    intro s
    unfold advAt
    by_cases hs : s = -1
    · simp [hs]
    · rw [show lookupSid ((-1, c2) :: t2) s = lookupSid t2 s from by simp [lookupSid, hs]]
  | case11 s1 c1 t1 s2 c2 t2 hneg hlt heq hneg2 ih =>
    intro h1 h2
    rw [show mergeLoop ((s1, c1) :: t1) ((s2, c2) :: t2) =
        ((s2, c2) :: (mergeLoop ((s1, c1) :: t1) t2).1, true)
        from by simp [mergeLoop, hneg, hlt, heq, hneg2]]
    simp only [true_iff]
    have hs2s1 : s2 < s1 := by
      rcases lt_trichotomy s1 s2 with h | h | h
      · exact absurd h hlt
      · exact absurd h heq
      · exact h
    have hnone : lookupSid ((s1, c1) :: t1) s2 = none := by
      apply lookupSid_none_of_lt
      intro p hp
      rcases List.mem_cons.mp hp with h | h
      · rw [h]; exact hs2s1
      · have := sorted_head_lt h1 p h
        omega
    refine ⟨s2, hneg2, Or.inr ⟨hnone, ?_⟩⟩
    simp [lookupSid]

theorem mem_keys_cons (s s0 : Int) (c0 : Csn) (t : List SC) :
    s ∈ keys ((s0, c0) :: t) ↔ s = s0 ∨ s ∈ keys t := by
  simp [keys]

theorem mem_keys_iff_lookup (l : List SC) (s : Int) :
    s ∈ keys l ↔ lookupSid l s ≠ none := by
  induction l with
  | nil => simp [keys, lookupSid]
  | cons p t ih =>
    obtain ⟨s0, c0⟩ := p
    rw [mem_keys_cons]
    by_cases hs : s = s0
    · subst hs
      simp [lookupSid]
    · simp only [lookupSid, if_neg hs]
      simp [hs, ih]

theorem combineOpt_eq_none_iff (o1 o2 : Option Csn) :
    combineOpt o1 o2 = none ↔ o1 = none ∧ o2 = none := by
  cases o1 <;> cases o2 <;> simp [combineOpt]

/-- A sid found in the lockstep merge came from one of the inputs. -/
theorem mergeLoop_keys_sub (t1 l2 : List SC) (h1 : SortedSids t1) (h2 : SortedSids l2)
    (b : Int) (hb : b ∈ keys (mergeLoop t1 l2).1) : b ∈ keys t1 ∨ b ∈ keys l2 := by
  rw [mem_keys_iff_lookup] at hb
  rw [mergeLoop_lookup t1 l2 h1 h2 b] at hb
  by_cases hneg : b = -1
  · simp [hneg] at hb
  · rw [if_neg hneg] at hb
    rw [mem_keys_iff_lookup, mem_keys_iff_lookup]
    by_cases hA : lookupSid t1 b = none
    · by_cases hB : lookupSid l2 b = none
      · rw [hA, hB] at hb
        simp [combineOpt] at hb
      · exact Or.inr hB
    · exact Or.inl hA

/-- The lockstep merge of two sorted vectors is sorted. -/
theorem mergeLoop_sorted :
    ∀ l1 l2 : List SC, SortedSids l1 → SortedSids l2 → SortedSids (mergeLoop l1 l2).1 := by
  intro l1 l2
  induction l1, l2 using mergeLoop.induct with
  | case1 =>
    intro _ _
    simp [mergeLoop, SortedSids, keys]
  | case2 c1 t1 ih =>
    intro h1 h2
    rw [show mergeLoop ((-1, c1) :: t1) [] = mergeLoop t1 [] from by simp [mergeLoop]]
    exact ih (sorted_tail h1) h2
  | case3 s1 c1 t1 hneg ih =>
    intro h1 h2
    rw [show mergeLoop ((s1, c1) :: t1) [] =
        ((s1, c1) :: (mergeLoop t1 []).1, (mergeLoop t1 []).2) from by simp [mergeLoop, hneg]]
    refine List.pairwise_cons.mpr ⟨?_, ih (sorted_tail h1) h2⟩
    intro b hb
    rcases mergeLoop_keys_sub t1 [] (sorted_tail h1) h2 b hb with h | h
    · obtain ⟨p, hp, rfl⟩ := List.mem_map.mp h
      exact sorted_head_lt h1 p hp
    · simp [keys] at h
  | case4 c2 t2 ih =>
    intro h1 h2
    rw [show mergeLoop [] ((-1, c2) :: t2) = mergeLoop [] t2 from by simp [mergeLoop]]
    exact ih h1 (sorted_tail h2)
  | case5 s2 c2 t2 hneg ih =>
    intro h1 h2
    rw [show mergeLoop [] ((s2, c2) :: t2) =
        ((s2, c2) :: (mergeLoop [] t2).1, true) from by simp [mergeLoop, hneg]]
    refine List.pairwise_cons.mpr ⟨?_, ih h1 (sorted_tail h2)⟩
    intro b hb
    rcases mergeLoop_keys_sub [] t2 h1 (sorted_tail h2) b hb with h | h
    · simp [keys] at h
    · obtain ⟨p, hp, rfl⟩ := List.mem_map.mp h
      exact sorted_head_lt h2 p hp
  | case6 c1 t1 s2 c2 t2 ih =>
    intro h1 h2
    rw [show mergeLoop ((-1, c1) :: t1) ((s2, c2) :: t2) = mergeLoop t1 ((s2, c2) :: t2)
        from by simp [mergeLoop]]
    exact ih (sorted_tail h1) h2
  | case7 s1 c1 t1 s2 c2 t2 hneg hlt ih =>
    intro h1 h2
    rw [show mergeLoop ((s1, c1) :: t1) ((s2, c2) :: t2) =
        ((s1, c1) :: (mergeLoop t1 ((s2, c2) :: t2)).1, (mergeLoop t1 ((s2, c2) :: t2)).2)
        from by simp [mergeLoop, hneg, hlt]]
    refine List.pairwise_cons.mpr ⟨?_, ih (sorted_tail h1) h2⟩
    intro b hb
    rcases mergeLoop_keys_sub t1 _ (sorted_tail h1) h2 b hb with h | h
    · obtain ⟨p, hp, rfl⟩ := List.mem_map.mp h
      exact sorted_head_lt h1 p hp
    · rcases (mem_keys_cons b s2 c2 t2).mp h with h | h
      · omega
      · obtain ⟨p, hp, rfl⟩ := List.mem_map.mp h
        have := sorted_head_lt h2 p hp
        omega
  | case8 c1 t1 s2 c2 t2 hcmp hneg hlt ih =>
    intro h1 h2
    rw [show mergeLoop ((s2, c1) :: t1) ((s2, c2) :: t2) =
        ((s2, c2) :: (mergeLoop t1 t2).1, true) from by simp [mergeLoop, hneg, hcmp]]
    refine List.pairwise_cons.mpr ⟨?_, ih (sorted_tail h1) (sorted_tail h2)⟩
    intro b hb
    rcases mergeLoop_keys_sub t1 t2 (sorted_tail h1) (sorted_tail h2) b hb with h | h <;>
      obtain ⟨p, hp, rfl⟩ := List.mem_map.mp h
    · exact sorted_head_lt h1 p hp
    · exact sorted_head_lt h2 p hp
  | case9 c1 t1 s2 c2 t2 hcmp hneg hlt ih =>
    intro h1 h2
    rw [show mergeLoop ((s2, c1) :: t1) ((s2, c2) :: t2) =
        ((s2, c1) :: (mergeLoop t1 t2).1, (mergeLoop t1 t2).2)
        from by simp [mergeLoop, hneg, hcmp]]
    refine List.pairwise_cons.mpr ⟨?_, ih (sorted_tail h1) (sorted_tail h2)⟩
    intro b hb
    rcases mergeLoop_keys_sub t1 t2 (sorted_tail h1) (sorted_tail h2) b hb with h | h <;>
      obtain ⟨p, hp, rfl⟩ := List.mem_map.mp h
    · exact sorted_head_lt h1 p hp
    · exact sorted_head_lt h2 p hp
  | case10 s1 c1 t1 c2 t2 hneg hlt hneg2 ih =>
    intro h1 h2
    rw [show mergeLoop ((s1, c1) :: t1) ((-1, c2) :: t2) = mergeLoop ((s1, c1) :: t1) t2
        from by simp [mergeLoop, hneg, hlt]]
    exact ih h1 (sorted_tail h2)
  | case11 s1 c1 t1 s2 c2 t2 hneg hlt heq hneg2 ih =>
    intro h1 h2
    rw [show mergeLoop ((s1, c1) :: t1) ((s2, c2) :: t2) =
        ((s2, c2) :: (mergeLoop ((s1, c1) :: t1) t2).1, true)
        from by simp [mergeLoop, hneg, hlt, heq, hneg2]]
    have hs2s1 : s2 < s1 := by
      rcases lt_trichotomy s1 s2 with h | h | h
      · exact absurd h hlt
      · exact absurd h heq
      · exact h
    refine List.pairwise_cons.mpr ⟨?_, ih h1 (sorted_tail h2)⟩
    intro b hb
    rcases mergeLoop_keys_sub _ t2 h1 (sorted_tail h2) b hb with h | h
    · rcases (mem_keys_cons b s1 c1 t1).mp h with h | h
      · omega
      · obtain ⟨p, hp, rfl⟩ := List.mem_map.mp h
        have := sorted_head_lt h1 p hp
        omega
    · obtain ⟨p, hp, rfl⟩ := List.mem_map.mp h
      exact sorted_head_lt h2 p hp

/-! ### Fast-path lemmas -/

/-- The pointwise maximum of two equal-length vectors, keeping the first
vector's sids — the shape of `merge_state`'s fast path. -/
def zipMax (l1 l2 : List SC) : List SC :=
  List.zipWith (fun p q => (p.1, bvmax p.2 q.2)) l1 l2

theorem fastMerge_fst : ∀ l1 l2 : List SC, (fastMerge l1 l2).1 = zipMax l1 l2 := by
  intro l1
  induction l1 with
  | nil => intro l2; cases l2 <;> simp [fastMerge, zipMax]
  | cons p t ih =>
    intro l2
    obtain ⟨s1, c1⟩ := p
    cases l2 with
    | nil => simp [fastMerge, zipMax]
    | cons q t2 =>
      obtain ⟨s2, c2⟩ := q
      by_cases hc : bvcmp c1 c2 < 0 <;> simp [fastMerge, zipMax, hc, bvmax, ih]

theorem fastMerge_snd : ∀ l1 l2 : List SC,
    ((fastMerge l1 l2).2 = true ↔ ∃ p ∈ l1.zip l2, bvcmp p.1.2 p.2.2 < 0) := by
  intro l1
  induction l1 with
  | nil => intro l2; cases l2 <;> simp [fastMerge]
  | cons p t ih =>
    intro l2
    obtain ⟨s1, c1⟩ := p
    cases l2 with
    | nil => simp [fastMerge]
    | cons q t2 =>
      obtain ⟨s2, c2⟩ := q
      rw [show (fastMerge ((s1, c1) :: t) ((s2, c2) :: t2)).2 =
          if bvcmp c1 c2 < 0 then true else (fastMerge t t2).2 from by
        by_cases hc : bvcmp c1 c2 < 0 <;> simp [fastMerge, hc]]
      by_cases hc : bvcmp c1 c2 < 0
      · rw [if_pos hc]
        constructor
        · intro _
          exact ⟨((s1, c1), (s2, c2)), by simp, hc⟩
        · intro _
          rfl
      · rw [if_neg hc, ih t2]
        simp only [List.zip_cons_cons, List.mem_cons]
        constructor
        · rintro ⟨a, ha, hcmp⟩
          exact ⟨a, Or.inr ha, hcmp⟩
        · rintro ⟨a, ha | ha, hcmp⟩
          · subst ha
            exact absurd hcmp hc
          · exact ⟨a, ha, hcmp⟩

theorem fastMerge_self (x : List SC) : fastMerge x x = (x, false) := by
  induction x with
  | nil => rfl
  | cons p t ih =>
    obtain ⟨s, c⟩ := p
    have : ¬ bvcmp c c < 0 := by rw [bvcmp_self]; omega
    simp [fastMerge, this, ih]

theorem zipMax_comm : ∀ l1 l2 : List SC, keys l1 = keys l2 → zipMax l1 l2 = zipMax l2 l1 := by
  intro l1
  induction l1 with
  | nil => intro l2 h; cases l2 <;> simp_all [zipMax, keys]
  | cons p t ih =>
    intro l2 h
    cases l2 with
    | nil => simp [keys] at h
    | cons q t2 =>
      obtain ⟨s1, c1⟩ := p
      obtain ⟨s2, c2⟩ := q
      simp only [keys, List.map_cons, List.cons.injEq] at h
      obtain ⟨hk, ht⟩ := h
      simp [zipMax, hk, bvmax_comm c1 c2]
      exact ih t2 ht

/-- Pairwise strictly-increasing sids are duplicate-free. -/
theorem sorted_nodup {l : List SC} (h : SortedSids l) : (keys l).Nodup :=
  h.imp ne_of_lt

theorem mem_iff_lookup :
    ∀ l : List SC, (keys l).Nodup → ∀ (s : Int) (c : Csn),
      ((s, c) ∈ l ↔ lookupSid l s = some c) := by
  intro l
  induction l with
  | nil => intro _ s c; simp [lookupSid]
  | cons p t ih =>
    intro h s c
    obtain ⟨s0, c0⟩ := p
    have hnd : s0 ∉ keys t ∧ (keys t).Nodup := by simpa [keys] using h
    by_cases hs : s = s0
    · subst hs
      rw [show lookupSid ((s, c0) :: t) s = some c0 from by simp [lookupSid]]
      simp only [List.mem_cons, Option.some.injEq]
      constructor
      · rintro (heq | hmem)
        · exact (((Prod.mk.injEq _ _ _ _).mp heq).2).symm
        · exact absurd (List.mem_map_of_mem Prod.fst hmem) hnd.1
      · intro hc
        exact Or.inl (by rw [hc])
    · simp only [lookupSid, if_neg hs, List.mem_cons]
      constructor
      · rintro (heq | hmem)
        · exact absurd (congrArg Prod.fst heq) hs
        · exact (ih hnd.2 s c).mp hmem
      · intro hl
        exact Or.inr ((ih hnd.2 s c).mpr hl)

/-! ### Claims about `merge_state` -/

/-- **C1** (amended).  For sorted CSN vectors, `merge_state` behaves as
follows.  When the two vectors carry identical sid sequences it takes the
fast path: the result is the pointwise CSN maximum (sid `-1` entries
included, contrary to the original claim) and `changed` holds iff some CSN
advanced.  Otherwise it walks the vectors in lockstep: for every sid other
than `-1` the result holds the lexicographically greater CSN when the sid is
in both vectors, the local CSN when only local, the remote CSN when only
remote (insertion); no entry with sid `-1` survives; and `changed` holds iff
some CSN was advanced or some sid was inserted from the remote vector. -/
theorem claim_C1_merge_state (l1 l2 : List SC)
    (h1 : SortedSids l1) (h2 : SortedSids l2) :
    (keys l1 = keys l2 →
      (merge_state l1 l2).1 = zipMax l1 l2 ∧
      ((merge_state l1 l2).2 = true ↔ ∃ p ∈ l1.zip l2, bvcmp p.1.2 p.2.2 < 0)) ∧
    (keys l1 ≠ keys l2 →
      (∀ s : Int, s ≠ -1 →
        lookupSid (merge_state l1 l2).1 s = combineOpt (lookupSid l1 s) (lookupSid l2 s)) ∧
      (∀ c : Csn, ((-1 : Int), c) ∉ (merge_state l1 l2).1) ∧
      ((merge_state l1 l2).2 = true ↔ ∃ s, advAt l1 l2 s)) := by
  constructor
  · intro hk
    simp only [merge_state, if_pos hk]
    exact ⟨fastMerge_fst l1 l2, fastMerge_snd l1 l2⟩
  · intro hk
    simp only [merge_state, if_neg hk]
    refine ⟨?_, ?_, mergeLoop_changed l1 l2 h1 h2⟩
    · intro s hs
      rw [mergeLoop_lookup l1 l2 h1 h2 s, if_neg hs]
    · intro c
      have hnone : lookupSid (mergeLoop l1 l2).1 (-1) = none := by
        rw [mergeLoop_lookup l1 l2 h1 h2 (-1), if_pos rfl]
      exact (lookupSid_eq_none_iff _ _).mp hnone c

/-- **C1** witness: the theorem applied at the concrete sorted vectors
`[(1,[50]), (2,[60])]` and `[(2,[61]), (3,[10])]` (lockstep-merge path). -/
theorem claim_C1_merge_state_witness :
    SortedSids [((1 : Int), ([50] : Csn)), (2, [60])] ∧
    SortedSids [((2 : Int), ([61] : Csn)), (3, [10])] ∧
    ((keys [((1 : Int), ([50] : Csn)), (2, [60])] = keys [((2 : Int), ([61] : Csn)), (3, [10])] →
      (merge_state [((1 : Int), ([50] : Csn)), (2, [60])] [((2 : Int), ([61] : Csn)), (3, [10])]).1 =
        zipMax [((1 : Int), ([50] : Csn)), (2, [60])] [((2 : Int), ([61] : Csn)), (3, [10])] ∧
      ((merge_state [((1 : Int), ([50] : Csn)), (2, [60])] [((2 : Int), ([61] : Csn)), (3, [10])]).2 = true ↔
        ∃ p ∈ ([((1 : Int), ([50] : Csn)), (2, [60])]).zip [((2 : Int), ([61] : Csn)), (3, [10])],
          bvcmp p.1.2 p.2.2 < 0)) ∧
    (keys [((1 : Int), ([50] : Csn)), (2, [60])] ≠ keys [((2 : Int), ([61] : Csn)), (3, [10])] →
      (∀ s : Int, s ≠ -1 →
        lookupSid (merge_state [((1 : Int), ([50] : Csn)), (2, [60])]
            [((2 : Int), ([61] : Csn)), (3, [10])]).1 s =
          combineOpt (lookupSid [((1 : Int), ([50] : Csn)), (2, [60])] s)
            (lookupSid [((2 : Int), ([61] : Csn)), (3, [10])] s)) ∧
      (∀ c : Csn, ((-1 : Int), c) ∉
        (merge_state [((1 : Int), ([50] : Csn)), (2, [60])]
          [((2 : Int), ([61] : Csn)), (3, [10])]).1) ∧
      ((merge_state [((1 : Int), ([50] : Csn)), (2, [60])]
          [((2 : Int), ([61] : Csn)), (3, [10])]).2 = true ↔
        ∃ s, advAt [((1 : Int), ([50] : Csn)), (2, [60])] [((2 : Int), ([61] : Csn)), (3, [10])] s))) :=
  ⟨by decide, by decide,
    claim_C1_merge_state _ _ (by decide) (by decide)⟩

/-- **C1** counterexample to the claim as stated: the claim demands that the
merged vector omit every entry with sid `-1`, but when the two vectors carry
identical sid sequences `merge_state` takes its fast path (syncrepl.c:818-826),
which performs no `-1` skipping: merging `[(-1,"A")]` with itself returns the
`-1` entry unchanged. -/
theorem claim_C1_counterexample :
    (merge_state [((-1 : Int), ([65] : Csn))] [((-1 : Int), ([65] : Csn))]).1 =
      [((-1 : Int), ([65] : Csn))] ∧
    ((-1 : Int), ([65] : Csn)) ∈
      (merge_state [((-1 : Int), ([65] : Csn))] [((-1 : Int), ([65] : Csn))]).1 := by
  constructor
  · decide
  · decide

/-- **C7**. `merge_state` is idempotent — merging any vector with itself
returns it unchanged with `changed = false` — and commutative up to
permutation of insertion order: for sorted vectors, `merge_state a b` and
`merge_state b a` contain the same set of `(sid, csn)` entries. -/
theorem claim_C7_merge_algebra :
    (∀ x : List SC, merge_state x x = (x, false)) ∧
    (∀ a b : List SC, SortedSids a → SortedSids b →
      ∀ p : SC, p ∈ (merge_state a b).1 ↔ p ∈ (merge_state b a).1) := by
  constructor
  · intro x
    simp only [merge_state, if_pos rfl]
    exact fastMerge_self x
  · intro a b ha hb p
    by_cases hk : keys a = keys b
    · simp only [merge_state, if_pos hk, if_pos hk.symm]
      rw [fastMerge_fst, fastMerge_fst, zipMax_comm a b hk]
    · simp only [merge_state, if_neg hk, if_neg (Ne.symm hk)]
      obtain ⟨s, c⟩ := p
      have hab := mergeLoop_sorted a b ha hb
      have hba := mergeLoop_sorted b a hb ha
      rw [mem_iff_lookup _ (sorted_nodup hab) s c, mem_iff_lookup _ (sorted_nodup hba) s c]
      rw [mergeLoop_lookup a b ha hb s, mergeLoop_lookup b a hb ha s]
      by_cases hs : s = -1
      · rw [if_pos hs, if_pos hs]
      · rw [if_neg hs, if_neg hs]
        cases hA : lookupSid a s <;> cases hB : lookupSid b s <;>
          simp [combineOpt, bvmax_comm]

/-- **C7** witness: idempotence evaluated at `[(1,[7])]`, and commutativity
applied at the concrete sorted vectors `[(1,[2])]` and `[(2,[3])]` with the
entry `(2,[3])`. -/
theorem claim_C7_merge_algebra_witness :
    merge_state [((1 : Int), ([7] : Csn))] [((1 : Int), ([7] : Csn))] =
      ([((1 : Int), ([7] : Csn))], false) ∧
    SortedSids [((1 : Int), ([2] : Csn))] ∧ SortedSids [((2 : Int), ([3] : Csn))] ∧
    (((2 : Int), ([3] : Csn)) ∈
        (merge_state [((1 : Int), ([2] : Csn))] [((2 : Int), ([3] : Csn))]).1 ↔
      ((2 : Int), ([3] : Csn)) ∈
        (merge_state [((2 : Int), ([3] : Csn))] [((1 : Int), ([2] : Csn))]).1) :=
  ⟨claim_C7_merge_algebra.1 [((1 : Int), ([7] : Csn))], by decide, by decide,
    claim_C7_merge_algebra.2 [((1 : Int), ([2] : Csn))] [((2 : Int), ([3] : Csn))]
      (by decide) (by decide) ((2 : Int), ([3] : Csn))⟩

/-! ### `compare_csns` (syncrepl.c:1215-1251)

`compare_csns(sc1, sc2, &which)` compares two cookies.  If `sc1` has fewer
CSNs it returns `-1` with `which` the first diverging position.  Otherwise it
scans `sc2`: a sid missing from `sc1` or a strictly smaller CSN in `sc1`
returns `-1` with `which = j`; otherwise the value of the *last* comparison
performed is returned (`0` when `sc2` is empty). -/

/-- Length of the common sid prefix, as computed by the short-circuit branch
of `compare_csns` (syncrepl.c:1224-1226). -/
def prefixLen : List Int → List Int → Nat
  | a :: as, b :: bs => if a = b then prefixLen as bs + 1 else 0
  | _, _ => 0

/-- The main scan of `compare_csns` (syncrepl.c:1230-1250): `j` tracks the
index in `sc2`, `m` the last comparison result (initially `0`). -/
def ccLoop (l1 : List SC) : List SC → Nat → Int → Int × Nat
  | [], _, m => (m, 0)
  | (s2, c2) :: t2, j, m =>
    match lookupSid l1 s2 with
    | none => (-1, j)
    | some c1 =>
      if bvcmp c1 c2 < 0 then (bvcmp c1 c2, j)
      else ccLoop l1 t2 (j + 1) (bvcmp c1 c2)

/-- `compare_csns` (syncrepl.c:1215-1251). -/
def compare_csns (l1 l2 : List SC) : Int × Nat :=
  if l1.length < l2.length then (-1, prefixLen (keys l1) (keys l2))
  else ccLoop l1 l2 0 0

theorem bvcmp_neg_iff (a b : Csn) : bvcmp a b < 0 ↔ bvcmp a b = -1 := by
  rcases bvcmp_vals a b with h | h | h <;> rw [h] <;> norm_num

theorem ccLoop_neg_iff (l1 : List SC) :
    ∀ (t2 : List SC) (j : Nat) (m : Int), m ≠ -1 →
      ((ccLoop l1 t2 j m).1 = -1 ↔
        ∃ q ∈ t2, lookupSid l1 q.1 = none ∨
          ∃ c1, lookupSid l1 q.1 = some c1 ∧ bvcmp c1 q.2 < 0) := by
  intro t2
  induction t2 with
  | nil =>
    intro j m hm
    simp [ccLoop, hm]
  | cons q t ih =>
    intro j m hm
    obtain ⟨s2, c2⟩ := q
    cases hl : lookupSid l1 s2 with
    | none =>
      simp only [ccLoop, hl]
      constructor
      · intro _
        exact ⟨(s2, c2), List.mem_cons_self _ _, Or.inl hl⟩
      · intro _
        trivial
    | some c1 =>
      by_cases hc : bvcmp c1 c2 < 0
      · simp only [ccLoop, hl, if_pos hc]
        constructor
        · intro _
          exact ⟨(s2, c2), List.mem_cons_self _ _, Or.inr ⟨c1, hl, hc⟩⟩
        · intro _
          exact (bvcmp_neg_iff c1 c2).mp hc
      · have hm' : bvcmp c1 c2 ≠ -1 := fun h => hc ((bvcmp_neg_iff c1 c2).mpr h)
        simp only [ccLoop, hl, if_neg hc]
        rw [ih (j + 1) _ hm']
        constructor
        · rintro ⟨a, ha, hcase⟩
          exact ⟨a, List.mem_cons_of_mem _ ha, hcase⟩
        · rintro ⟨a, ha, hcase⟩
          rcases List.mem_cons.mp ha with rfl | ha'
          · rcases hcase with h | ⟨c1', hc1', hlt⟩
            · rw [hl] at h
              cases h
            · rw [hl] at hc1'
              rw [Option.some.injEq] at hc1'
              subst hc1'
              exact absurd hlt hc
          · exact ⟨a, ha', hcase⟩

theorem ccLoop_all_ok (l1 : List SC) :
    ∀ (t2 : List SC) (j : Nat) (m : Int),
      (∀ q ∈ t2, ∃ c1, lookupSid l1 q.1 = some c1 ∧ ¬ bvcmp c1 q.2 < 0) →
      (t2 = [] → (ccLoop l1 t2 j m).1 = m) ∧
      (∀ s2 c2 c1, t2.getLast? = some (s2, c2) → lookupSid l1 s2 = some c1 →
        (ccLoop l1 t2 j m).1 = bvcmp c1 c2) := by
  intro t2
  induction t2 with
  | nil =>
    intro j m _
    refine ⟨fun _ => rfl, ?_⟩
    intro s2 c2 c1 h
    cases h
  | cons q t ih =>
    intro j m hall
    obtain ⟨s2, c2⟩ := q
    obtain ⟨c1, hl, hc⟩ := hall (s2, c2) (List.mem_cons_self _ _)
    have hall' : ∀ q ∈ t, ∃ c1, lookupSid l1 q.1 = some c1 ∧ ¬ bvcmp c1 q.2 < 0 :=
      fun q hq => hall q (List.mem_cons_of_mem _ hq)
    have hstep : ccLoop l1 ((s2, c2) :: t) j m = ccLoop l1 t (j + 1) (bvcmp c1 c2) := by
      simp only [ccLoop, hl, if_neg hc]
    refine ⟨?_, ?_⟩
    · intro h
      cases h
    intro s2' c2' c1' hlast hl'
    cases t with
    | nil =>
      simp only [List.getLast?_singleton, Option.some.injEq, Prod.mk.injEq] at hlast
      obtain ⟨rfl, rfl⟩ := hlast
      rw [hl] at hl'
      rw [Option.some.injEq] at hl'
      subst hl'
      rw [hstep]
      exact (ih (j + 1) (bvcmp c1 c2) hall').1 rfl
    | cons q' t' =>
      rw [List.getLast?_cons_cons] at hlast
      rw [hstep]
      exact (ih (j + 1) (bvcmp c1 c2) hall').2 s2' c2' c1' hlast hl'

/-- **C5** (amended).  `compare_csns a b` returns `-1` exactly when **b** has
a sid **a** lacks or some CSN in `a` strictly precedes the matching CSN in
`b` (the original claim had the missing-sid direction reversed).  When no
such condition holds, the result is not the claimed symmetric `+1`/`0`
classification: it is the outcome of the *last* CSN comparison performed —
`0` for an empty `b`, and otherwise `bvcmp` of the matching CSNs at the
final sid of `b`. -/
theorem claim_C5_compare_csns (a b : List SC) (ha : SortedSids a) (hb : SortedSids b) :
    ((compare_csns a b).1 = -1 ↔
      (∃ q ∈ b, lookupSid a q.1 = none) ∨
      (∃ q ∈ b, ∃ c1, lookupSid a q.1 = some c1 ∧ bvcmp c1 q.2 < 0)) ∧
    ((compare_csns a b).1 ≠ -1 →
      (b = [] → (compare_csns a b).1 = 0) ∧
      (∀ s2 c2 c1, b.getLast? = some (s2, c2) → lookupSid a s2 = some c1 →
        (compare_csns a b).1 = bvcmp c1 c2)) := by
  by_cases hlen : a.length < b.length
  · have hfst : (compare_csns a b).1 = -1 := by
      simp [compare_csns, hlen]
    constructor
    · rw [hfst]
      constructor
      · intro _
        by_cases hmiss : ∃ q ∈ b, lookupSid a q.1 = none
        · exact Or.inl hmiss
        · exfalso
          push_neg at hmiss
          have hsub : keys b ⊆ keys a := by
            intro s hs
            obtain ⟨p, hp, rfl⟩ := List.mem_map.mp hs
            have := hmiss p hp
            rw [mem_keys_iff_lookup]
            exact this
          have := (List.Nodup.subperm (sorted_nodup hb) hsub).length_le
          simp only [keys, List.length_map] at this
          omega
      · intro _
        rfl
    · intro h
      exact absurd hfst h
  · have hc : compare_csns a b = ccLoop a b 0 0 := by
      simp [compare_csns, hlen]
    rw [hc]
    have hneg := ccLoop_neg_iff a b 0 0 (by norm_num)
    constructor
    · rw [hneg]
      constructor
      · rintro ⟨q, hq, hcase | hcase⟩
        · exact Or.inl ⟨q, hq, hcase⟩
        · exact Or.inr ⟨q, hq, hcase⟩
      · rintro (⟨q, hq, hcase⟩ | ⟨q, hq, hcase⟩)
        · exact ⟨q, hq, Or.inl hcase⟩
        · exact ⟨q, hq, Or.inr hcase⟩
    · intro hne
      have hnotex := (not_iff_not.mpr hneg).mp hne
      push_neg at hnotex
      have hall : ∀ q ∈ b, ∃ c1, lookupSid a q.1 = some c1 ∧ ¬ bvcmp c1 q.2 < 0 := by
        intro q hq
        obtain ⟨hnone, hno⟩ := hnotex q hq
        cases hl : lookupSid a q.1 with
        | none => exact absurd hl hnone
        | some c1 =>
          refine ⟨c1, rfl, ?_⟩
          intro hlt
          have := hno c1 hl
          omega
      exact ccLoop_all_ok a b 0 0 hall

/-- **C5** witness: the theorem applied at the concrete sorted cookies
`[(1,[5])]` and `[(1,[9])]`. -/
theorem claim_C5_compare_csns_witness :
    SortedSids [((1 : Int), ([5] : Csn))] ∧ SortedSids [((1 : Int), ([9] : Csn))] ∧
    ((compare_csns [((1 : Int), ([5] : Csn))] [((1 : Int), ([9] : Csn))]).1 = -1 ↔
      (∃ q ∈ [((1 : Int), ([9] : Csn))], lookupSid [((1 : Int), ([5] : Csn))] q.1 = none) ∨
      (∃ q ∈ [((1 : Int), ([9] : Csn))], ∃ c1,
        lookupSid [((1 : Int), ([5] : Csn))] q.1 = some c1 ∧ bvcmp c1 q.2 < 0)) ∧
    ((compare_csns [((1 : Int), ([5] : Csn))] [((1 : Int), ([9] : Csn))]).1 ≠ -1 →
      ([((1 : Int), ([9] : Csn))] = ([] : List SC) →
        (compare_csns [((1 : Int), ([5] : Csn))] [((1 : Int), ([9] : Csn))]).1 = 0) ∧
      (∀ s2 c2 c1, ([((1 : Int), ([9] : Csn))] : List SC).getLast? = some (s2, c2) →
        lookupSid [((1 : Int), ([5] : Csn))] s2 = some c1 →
        (compare_csns [((1 : Int), ([5] : Csn))] [((1 : Int), ([9] : Csn))]).1 = bvcmp c1 c2)) :=
  ⟨by decide, by decide,
    claim_C5_compare_csns _ _ (by decide) (by decide)⟩

/-- **C5** counterexample to the claim as stated.  Take
`a = [(1,[50]), (2,[49])]` and `b = [(1,[49]), (2,[49])]`: the vectors share
both sids and `b`'s CSN at sid 1 strictly precedes `a`'s (the claim's
"symmetric" `+1` case, and not its `0` case since the cookies disagree at
sid 1), yet `compare_csns a b` returns `0` — the scan remembers only the
*last* comparison, which is a tie at sid 2. -/
theorem claim_C5_counterexample :
    (compare_csns [((1 : Int), ([50] : Csn)), (2, [49])]
        [((1 : Int), ([49] : Csn)), (2, [49])]).1 = 0 ∧
    (∃ p ∈ ([((1 : Int), ([50] : Csn)), (2, [49])] : List SC),
      ∃ q ∈ ([((1 : Int), ([49] : Csn)), (2, [49])] : List SC),
        p.1 = q.1 ∧ bvcmp q.2 p.2 < 0) ∧
    (∀ s ∈ keys [((1 : Int), ([50] : Csn)), (2, [49])],
      s ∈ keys [((1 : Int), ([49] : Csn)), (2, [49])]) ∧
    (∀ s ∈ keys [((1 : Int), ([49] : Csn)), (2, [49])],
      s ∈ keys [((1 : Int), ([50] : Csn)), (2, [49])]) ∧
    (∀ p ∈ ([((1 : Int), ([50] : Csn)), (2, [49])] : List SC),
      ∀ q ∈ ([((1 : Int), ([49] : Csn)), (2, [49])] : List SC),
        p.1 = q.1 → ¬ bvcmp p.2 q.2 < 0) := by
  refine ⟨by decide, ⟨(1, [50]), by decide, (1, [49]), by decide, by decide⟩, ?_, ?_, ?_⟩ <;>
    decide

/-! ### `check_csn_age` (syncrepl.c:1253-1290)

Scans the cookie vector for `sid` (the vector is sorted, so the scan can
stop at the first larger sid): absent sid reports `newSid` with the
insertion slot; present sid reports `old` when `csn` is not strictly newer
than the stored CSN (the C code leaves `*slot` unwritten on this path),
`ok` with the slot otherwise. -/

inductive CsnAge where
  | ok
  | old
  | newSid
deriving DecidableEq, Repr

/-- `check_csn_age` (syncrepl.c:1257-1290); `i` is the scan index. -/
def check_csn_age (csn : Csn) (sid : Int) : List SC → Nat → CsnAge × Option Nat
  | [], i => (.newSid, some i)
  | (s, c) :: t, i =>
    if sid < s then (.newSid, some i)
    else if s = sid then
      (if bvcmp csn c ≤ 0 then (.old, none) else (.ok, some i))
    else check_csn_age csn sid t (i + 1)

theorem check_csn_age_spec (csn : Csn) (sid : Int) :
    ∀ (cv : List SC) (i : Nat), SortedSids cv →
      (lookupSid cv sid = none →
        check_csn_age csn sid cv i =
          (.newSid, some (i + (keys cv).countP (fun k => decide (k < sid))))) ∧
      (∀ stored, lookupSid cv sid = some stored →
        (bvcmp csn stored ≤ 0 → check_csn_age csn sid cv i = (.old, none)) ∧
        (¬ bvcmp csn stored ≤ 0 →
          check_csn_age csn sid cv i =
            (.ok, some (i + (keys cv).countP (fun k => decide (k < sid)))))) := by
  intro cv
  induction cv with
  | nil =>
    intro i _
    refine ⟨fun _ => ?_, fun stored h => by cases h⟩
    simp [check_csn_age, keys]
  | cons p t ih =>
    intro i hs
    obtain ⟨s, c⟩ := p
    by_cases hlt : sid < s
    · have htail : lookupSid t sid = none := by
        apply lookupSid_none_of_lt
        intro q hq
        have := sorted_head_lt hs q hq
        omega
      have hcur : lookupSid ((s, c) :: t) sid = none := by
        have : sid ≠ s := by omega
        simp [lookupSid, this, htail]
      have hcount : (keys ((s, c) :: t)).countP (fun k => decide (k < sid)) = 0 := by
        rw [List.countP_eq_zero]
        intro k hk
        rcases (mem_keys_cons k s c t).mp hk with rfl | hk'
        · simp
          omega
        · obtain ⟨q, hq, rfl⟩ := List.mem_map.mp hk'
          have := sorted_head_lt hs q hq
          simp
          omega
      refine ⟨fun _ => ?_, fun stored h => absurd h (by rw [hcur]; simp)⟩
      simp [check_csn_age, hlt, hcount]
    · by_cases heq : s = sid
      · subst heq
        have htail : lookupSid t s = none := by
          apply lookupSid_none_of_lt
          intro q hq
          exact sorted_head_lt hs q hq
        have hcur : lookupSid ((s, c) :: t) s = some c := by
          simp [lookupSid]
        have hcount : (keys ((s, c) :: t)).countP (fun k => decide (k < s)) = 0 := by
          rw [List.countP_eq_zero]
          intro k hk
          rcases (mem_keys_cons k s c t).mp hk with rfl | hk'
          · simp
          · obtain ⟨q, hq, rfl⟩ := List.mem_map.mp hk'
            have := sorted_head_lt hs q hq
            simp
            omega
        constructor
        · intro h
          rw [hcur] at h
          cases h
        intro stored h
        rw [hcur, Option.some.injEq] at h
        subst h
        constructor
        · intro hle
          simp [check_csn_age, hlt, hle]
        · intro hgt
          simp [check_csn_age, hlt, hgt, hcount]
      · have hgt : s < sid := by omega
        have hstep : check_csn_age csn sid ((s, c) :: t) i = check_csn_age csn sid t (i + 1) := by
          simp [check_csn_age, hlt, heq]
        have hlook : lookupSid ((s, c) :: t) sid = lookupSid t sid := by
          have : sid ≠ s := by omega
          simp [lookupSid, this]
        have hcount : (keys ((s, c) :: t)).countP (fun k => decide (k < sid)) =
            (keys t).countP (fun k => decide (k < sid)) + 1 := by
          show List.countP _ (s :: keys t) = _
          simp [List.countP_cons, hgt]
        obtain ⟨ih1, ih2⟩ := ih (i + 1) (sorted_tail hs)
        constructor
        · intro hnone
          rw [hlook] at hnone
          rw [hstep, ih1 hnone, hcount]
          congr 2
          omega
        · intro stored hsome
          rw [hlook] at hsome
          obtain ⟨h1, h2⟩ := ih2 stored hsome
          constructor
          · intro hle
            rw [hstep]
            exact h1 hle
          · intro hgt'
            rw [hstep, h2 hgt', hcount]
            congr 2
            omega

/-- **C4**.  `check_csn_age(vec, sid, csn)` searches the sorted vector for
`sid` and returns: `newSid` with the insertion slot (the number of sids
smaller than `sid`) when the sid is absent; `old` when the sid is present
and `csn` is less than or equal to the stored CSN (bytewise); and `ok` with
the sid's slot otherwise.  (The C code scans linearly rather than
binary-searching, but returns exactly this classification.) -/
theorem claim_C4_check_csn_age (cv : List SC) (csn : Csn) (sid : Int)
    (h : SortedSids cv) :
    (lookupSid cv sid = none →
      check_csn_age csn sid cv 0 =
        (.newSid, some ((keys cv).countP (fun k => decide (k < sid))))) ∧
    (∀ stored, lookupSid cv sid = some stored →
      (bvcmp csn stored ≤ 0 → check_csn_age csn sid cv 0 = (.old, none)) ∧
      (¬ bvcmp csn stored ≤ 0 →
        check_csn_age csn sid cv 0 =
          (.ok, some ((keys cv).countP (fun k => decide (k < sid)))))) := by
  have := check_csn_age_spec csn sid cv 0 h
  simpa using this

/-- **C4** witness: the theorem applied at the sorted vector
`[(1,[3]), (3,[4])]` with `sid = 2`, `csn = [9]`. -/
theorem claim_C4_check_csn_age_witness :
    SortedSids [((1 : Int), ([3] : Csn)), (3, [4])] ∧
    ((lookupSid [((1 : Int), ([3] : Csn)), (3, [4])] 2 = none →
      check_csn_age [9] 2 [((1 : Int), ([3] : Csn)), (3, [4])] 0 =
        (.newSid, some ((keys [((1 : Int), ([3] : Csn)), (3, [4])]).countP
          (fun k => decide (k < 2))))) ∧
    (∀ stored, lookupSid [((1 : Int), ([3] : Csn)), (3, [4])] 2 = some stored →
      (bvcmp [9] stored ≤ 0 →
        check_csn_age [9] 2 [((1 : Int), ([3] : Csn)), (3, [4])] 0 = (.old, none)) ∧
      (¬ bvcmp [9] stored ≤ 0 →
        check_csn_age [9] 2 [((1 : Int), ([3] : Csn)), (3, [4])] 0 =
          (.ok, some ((keys [((1 : Int), ([3] : Csn)), (3, [4])]).countP
            (fun k => decide (k < 2))))))) :=
  ⟨by decide, claim_C4_check_csn_age _ _ _ (by decide)⟩

/-! ### `syncrepl_updateCookie` (syncrepl.c:5229-5413)

The commit step clones the shared committed vector, folds every CSN of the
incoming cookie into the clone (replacing a stored CSN only when the
incoming one is `memcmp`-greater over the common prefix, inserting CSNs of
sids not yet present), and — only if something changed and the backend
write of the new `contextCSN` succeeds — installs the clone as the new
committed vector, rebuilds the session cookie from it, and bumps the
generation counter `cs_age`. -/

/-- One iteration of the updateCookie merge loop (syncrepl.c:5284-5313) for
a single incoming `(sid, csn)`: scan the sorted clone, replace on a
`memcmp`-greater CSN for an equal sid, insert at the sort position for a new
sid (`slap_insert_csn_sids`, modelled from the spec: insert keeping sids
sorted).  Returns the updated vector and whether it changed. -/
def updateOne : List SC → Int → Csn → List SC × Bool
  | [], s, c => ([(s, c)], true)
  | (s2, c2) :: t, s, c =>
    if s < s2 then ((s, c) :: (s2, c2) :: t, true)
    else if s = s2 then
      if 0 < memcmpMin c c2 then ((s, c) :: t, true) else ((s2, c2) :: t, false)
    else
      let r := updateOne t s c
      ((s2, c2) :: r.1, r.2)

/-- The updateCookie merge loop (syncrepl.c:5283-5314): fold every incoming
CSN into the cloned committed vector, accumulating the `changed` flag. -/
def updateMerge (sc : List SC) (incoming : List SC) : List SC × Bool :=
  incoming.foldl (fun acc p =>
    let r := updateOne acc.1 p.1 p.2
    (r.1, acc.2 || r.2)) (sc, false)

/-- The per-database cookie state and the replica fields that
`syncrepl_updateCookie` touches. -/
structure CookieState where
  cs : List SC        -- cs_vals / cs_sids / cs_num
  age : Nat           -- cs_age
  syncCookie : List SC -- si_syncCookie
  cookieAge : Nat     -- si_cookieAge
deriving DecidableEq, Repr

/-- `syncrepl_updateCookie` (syncrepl.c:5282-5405) as a state transformer:
`writeOk` stands for the backend modify (or add) of the context entry
succeeding.  If the merge changed nothing the function returns early;
otherwise the clone is installed, the session cookie rebuilt and `cs_age`
bumped only when the write succeeded. -/
def syncrepl_updateCookie (st : CookieState) (incoming : List SC) (writeOk : Bool) :
    CookieState :=
  let r := updateMerge st.cs incoming
  if ¬ r.2 then st
  else if writeOk then
    { cs := r.1, age := st.age + 1, syncCookie := r.1, cookieAge := st.age + 1 }
  else st

/-- A sequence of commit attempts, each an incoming cookie together with the
success of its context-entry write. -/
def applyUpdates (st : CookieState) (steps : List (List SC × Bool)) : CookieState :=
  steps.foldl (fun st p => syncrepl_updateCookie st p.1 p.2) st

theorem updateOne_lookup (s : Int) (c : Csn) :
    ∀ sc : List SC, SortedSids sc → ∀ q : Int,
      lookupSid (updateOne sc s c).1 q =
        if q = s then
          (match lookupSid sc s with
            | none => some c
            | some v => if 0 < memcmpMin c v then some c else some v)
        else lookupSid sc q := by
  intro sc
  induction sc with
  | nil =>
    intro _ q
    by_cases hq : q = s <;> simp [updateOne, lookupSid, hq]
  | cons p t ih =>
    intro hs q
    obtain ⟨s2, c2⟩ := p
    by_cases h1 : s < s2
    · have hq2 : s ≠ s2 := by omega
      have ht : lookupSid t s = none := by
        apply lookupSid_none_of_lt
        intro r hr
        have := sorted_head_lt hs r hr
        omega
      by_cases hq : q = s
      · subst hq
        simp [updateOne, h1, lookupSid, hq2, ht]
      · simp [updateOne, h1, lookupSid, hq]
    · by_cases h2 : s = s2
      · subst h2
        have hlk : lookupSid ((s, c2) :: t) s = some c2 := by simp [lookupSid]
        by_cases hm : 0 < memcmpMin c c2
        · by_cases hq : q = s
          · subst hq
            simp [updateOne, h1, hm, lookupSid, hlk]
          · simp [updateOne, h1, hm, lookupSid, hq]
        · by_cases hq : q = s
          · subst hq
            simp [updateOne, h1, hm, lookupSid, hlk]
          · simp [updateOne, h1, hm, lookupSid, hq]
      · have hq2 : s ≠ s2 := h2
        have hstep : updateOne ((s2, c2) :: t) s c =
            ((s2, c2) :: (updateOne t s c).1, (updateOne t s c).2) := by
          simp [updateOne, h1, h2]
        rw [hstep]
        by_cases hq : q = s
        · subst hq
          simp only [lookupSid, if_neg hq2]
          rw [ih (sorted_tail hs) q]
          simp
        · by_cases hq3 : q = s2
          · subst hq3
            simp [lookupSid, hq]
          · simp only [lookupSid, if_neg hq3]
            rw [ih (sorted_tail hs) q]
            simp [hq]

theorem updateOne_keys (s : Int) (c : Csn) :
    ∀ sc : List SC, keys (updateOne sc s c).1 ⊆ s :: keys sc := by
  intro sc
  induction sc with
  | nil => simp [updateOne, keys]
  | cons p t ih =>
    obtain ⟨s2, c2⟩ := p
    by_cases h1 : s < s2
    · simp only [updateOne, if_pos h1]
      intro x hx
      simpa [keys] using hx
    · by_cases h2 : s = s2
      · subst h2
        by_cases hm : 0 < memcmpMin c c2
        · simp only [updateOne, if_neg h1, if_pos rfl, if_pos hm]
          intro x hx
          simpa [keys] using hx
        · simp only [updateOne, if_neg h1, if_pos rfl, if_neg hm]
          intro x hx
          simpa [keys] using hx
      · simp only [updateOne, if_neg h1, if_neg h2]
        intro x hx
        rcases (mem_keys_cons x s2 c2 _).mp hx with rfl | hx'
        · simp [keys]
        · have := ih hx'
          rcases List.mem_cons.mp this with rfl | h
          · exact List.mem_cons_self _ _
          · refine List.mem_cons_of_mem _ ?_
            exact (mem_keys_cons x s2 c2 t).mpr (Or.inr h)

theorem updateOne_sorted (s : Int) (c : Csn) :
    ∀ sc : List SC, SortedSids sc → SortedSids (updateOne sc s c).1 := by
  intro sc
  induction sc with
  | nil =>
    intro _
    simp [updateOne, SortedSids, keys]
  | cons p t ih =>
    intro hs
    obtain ⟨s2, c2⟩ := p
    by_cases h1 : s < s2
    · simp only [updateOne, if_pos h1]
      refine List.pairwise_cons.mpr ⟨?_, hs⟩
      intro b hb
      rcases (mem_keys_cons b s2 c2 t).mp hb with rfl | hb'
      · exact h1
      · obtain ⟨r, hr, rfl⟩ := List.mem_map.mp hb'
        have := sorted_head_lt hs r hr
        omega
    · by_cases h2 : s = s2
      · subst h2
        by_cases hm : 0 < memcmpMin c c2
        · simp only [updateOne, if_neg h1, if_pos rfl, if_pos hm]
          refine List.pairwise_cons.mpr ⟨?_, sorted_tail hs⟩
          intro b hb
          obtain ⟨r, hr, rfl⟩ := List.mem_map.mp hb
          exact sorted_head_lt hs r hr
        · simp only [updateOne, if_neg h1, if_pos rfl, if_neg hm]
          exact hs
      · simp only [updateOne, if_neg h1, if_neg h2]
        refine List.pairwise_cons.mpr ⟨?_, ih (sorted_tail hs)⟩
        intro b hb
        have := updateOne_keys s c t hb
        rcases List.mem_cons.mp this with rfl | h
        · omega
        · obtain ⟨r, hr, rfl⟩ := List.mem_map.mp h
          exact sorted_head_lt hs r hr

/-- The vector component of the updateCookie merge as a plain fold. -/
def updateFold : List SC → List SC → List SC
  | sc, [] => sc
  | sc, p :: t => updateFold (updateOne sc p.1 p.2).1 t

theorem updateMerge_fst :
    ∀ (incoming : List SC) (sc : List SC) (b : Bool),
      (incoming.foldl (fun acc p =>
        let r := updateOne acc.1 p.1 p.2
        (r.1, acc.2 || r.2)) (sc, b)).1 = updateFold sc incoming := by
  intro incoming
  induction incoming with
  | nil => intro sc b; rfl
  | cons p t ih =>
    intro sc b
    simp only [List.foldl_cons, updateFold]
    exact ih _ _

theorem updateFold_sorted :
    ∀ (incoming sc : List SC), SortedSids sc → SortedSids (updateFold sc incoming) := by
  intro incoming
  induction incoming with
  | nil => intro sc h; exact h
  | cons p t ih =>
    intro sc h
    exact ih _ (updateOne_sorted p.1 p.2 sc h)

theorem updateOne_mono (s1 : Int) (c1 : Csn) (sc : List SC) (hs : SortedSids sc)
    (s : Int) (v : Csn) (hv : lookupSid sc s = some v) :
    ∃ v', lookupSid (updateOne sc s1 c1).1 s = some v' ∧
      (v' = v ∨ (0 < memcmpMin c1 v ∧ v' = c1)) := by
  rw [updateOne_lookup s1 c1 sc hs s]
  by_cases hq : s = s1
  · subst hq
    rw [hv]
    by_cases hm : 0 < memcmpMin c1 v
    · exact ⟨c1, by rw [if_pos rfl]; simp [hm], Or.inr ⟨hm, rfl⟩⟩
    · exact ⟨v, by rw [if_pos rfl]; simp [hm], Or.inl rfl⟩
  · exact ⟨v, by rw [if_neg hq, hv], Or.inl rfl⟩

theorem updateFold_mono :
    ∀ (incoming sc : List SC), SortedSids sc →
      ∀ (s : Int) (v : Csn), lookupSid sc s = some v →
        ∃ v', lookupSid (updateFold sc incoming) s = some v' ∧ bvcmp v v' ≤ 0 := by
  intro incoming
  induction incoming with
  | nil =>
    intro sc _ s v hv
    exact ⟨v, hv, by rw [bvcmp_self]⟩
  | cons p t ih =>
    intro sc hs s v hv
    obtain ⟨v1, hv1, hcase⟩ := updateOne_mono p.1 p.2 sc hs s v hv
    obtain ⟨v', hv', hle⟩ := ih _ (updateOne_sorted p.1 p.2 sc hs) s v1 hv1
    refine ⟨v', hv', ?_⟩
    rcases hcase with rfl | ⟨hm, rfl⟩
    · exact hle
    · exact bvcmp_trans_le v p.2 v' (bvcmp_pos_of_memcmpMin_pos p.2 v hm).1 hle

/-- **C2**.  Per sid, the committed cookie never regresses:
`syncrepl_updateCookie`'s merge replaces a stored CSN only with a strictly
greater one (bytewise) and otherwise only inserts CSNs for sids not yet
present, so over any sequence of commit attempts (succeeding or failing)
the committed CSN of every sid is monotonically non-decreasing. -/
theorem claim_C2_cookie_monotonic :
    (∀ (committed incoming : List SC), SortedSids committed →
      ∀ (s : Int) (v v' : Csn), lookupSid committed s = some v →
        lookupSid (updateMerge committed incoming).1 s = some v' →
        v' = v ∨ bvcmp v v' < 0) ∧
    (∀ (st : CookieState) (steps : List (List SC × Bool)), SortedSids st.cs →
      ∀ (s : Int) (v : Csn), lookupSid st.cs s = some v →
        ∃ v', lookupSid (applyUpdates st steps).cs s = some v' ∧ bvcmp v v' ≤ 0) := by
  constructor
  · intro committed incoming hs s v v' hv hv'
    rw [updateMerge, updateMerge_fst] at hv'
    obtain ⟨v'', hv'', hle⟩ := updateFold_mono incoming committed hs s v hv
    rw [hv'] at hv''
    rw [Option.some.injEq] at hv''
    subst hv''
    rcases bvcmp_vals v v' with h | h | h
    · right; omega
    · left
      exact ((bvcmp_eq_zero_iff v v').mp h).symm
    · omega
  · intro st steps
    induction steps generalizing st with
    | nil =>
      intro _ s v hv
      exact ⟨v, hv, by rw [bvcmp_self]⟩
    | cons p t ih =>
      intro hs s v hv
      set st' := syncrepl_updateCookie st p.1 p.2 with hst'
      have hcs : st'.cs = st.cs ∨ st'.cs = updateFold st.cs p.1 := by
        rw [hst', syncrepl_updateCookie]
        by_cases hch : (updateMerge st.cs p.1).2
        · by_cases hw : p.2
          · right
            simp only [hch, hw, not_true, if_neg, if_false]
            simp [updateMerge, updateMerge_fst]
          · left
            simp [hch, hw]
        · left
          simp [hch]
      have hsorted' : SortedSids st'.cs := by
        rcases hcs with h | h
        · rw [h]; exact hs
        · rw [h]; exact updateFold_sorted _ _ hs
      have hmono : ∃ v1, lookupSid st'.cs s = some v1 ∧ bvcmp v v1 ≤ 0 := by
        rcases hcs with h | h
        · rw [h]
          exact ⟨v, hv, by rw [bvcmp_self]⟩
        · rw [h]
          exact updateFold_mono p.1 st.cs hs s v hv
      obtain ⟨v1, hv1, hle1⟩ := hmono
      obtain ⟨v', hv', hle2⟩ := ih st' hsorted' s v1 hv1
      have : applyUpdates st (p :: t) = applyUpdates st' t := rfl
      rw [this]
      exact ⟨v', hv', bvcmp_trans_le v v1 v' hle1 hle2⟩

/-- **C2** witness: the theorem applied with committed `[(1,[5])]`, an
incoming cookie `[(1,[9])]`, and one successful commit step. -/
theorem claim_C2_cookie_monotonic_witness :
    SortedSids [((1 : Int), ([5] : Csn))] ∧
    (∀ (s : Int) (v v' : Csn), lookupSid [((1 : Int), ([5] : Csn))] s = some v →
      lookupSid (updateMerge [((1 : Int), ([5] : Csn))] [((1 : Int), ([9] : Csn))]).1 s = some v' →
      v' = v ∨ bvcmp v v' < 0) ∧
    (∀ (s : Int) (v : Csn),
      lookupSid (CookieState.mk [((1 : Int), ([5] : Csn))] 0 [] 0).cs s = some v →
      ∃ v', lookupSid (applyUpdates (CookieState.mk [((1 : Int), ([5] : Csn))] 0 [] 0)
          [([((1 : Int), ([9] : Csn))], true)]).cs s = some v' ∧ bvcmp v v' ≤ 0) :=
  ⟨by decide,
    claim_C2_cookie_monotonic.1 [((1 : Int), ([5] : Csn))] [((1 : Int), ([9] : Csn))] (by decide),
    claim_C2_cookie_monotonic.2 (CookieState.mk [((1 : Int), ([5] : Csn))] 0 [] 0)
      [([((1 : Int), ([9] : Csn))], true)] (by decide)⟩

/-- **C10**.  Committing the cookie is atomic with respect to its
persistence: when the backend write fails (or nothing changed), the shared
committed vector, the session cookie and `cs_age` are left untouched; they
are replaced — and `cs_age` incremented — exactly when the merge changed
something and the write succeeded. -/
theorem claim_C10_commit_atomic :
    (∀ (st : CookieState) (incoming : List SC),
      syncrepl_updateCookie st incoming false = st) ∧
    (∀ (st : CookieState) (incoming : List SC),
      (updateMerge st.cs incoming).2 = false →
      syncrepl_updateCookie st incoming true = st) ∧
    (∀ (st : CookieState) (incoming : List SC),
      (updateMerge st.cs incoming).2 = true →
      syncrepl_updateCookie st incoming true =
        { cs := (updateMerge st.cs incoming).1, age := st.age + 1,
          syncCookie := (updateMerge st.cs incoming).1, cookieAge := st.age + 1 }) := by
  refine ⟨?_, ?_, ?_⟩
  · intro st incoming
    rw [syncrepl_updateCookie]
    by_cases hch : (updateMerge st.cs incoming).2 <;> simp [hch]
  · intro st incoming hch
    rw [syncrepl_updateCookie]
    simp [hch]
  · intro st incoming hch
    rw [syncrepl_updateCookie]
    simp [hch]

/-- **C10** witness: a failing write at a state whose merge would change the
vector leaves the state untouched, and the same merge with a successful
write installs the new vector and bumps the age — both obtained by applying
the theorem at `st = ⟨[], 7, [], 7⟩`, `incoming = [(1,[5])]`. -/
theorem claim_C10_commit_atomic_witness :
    syncrepl_updateCookie (CookieState.mk [] 7 [] 7) [((1 : Int), ([5] : Csn))] false =
      CookieState.mk [] 7 [] 7 ∧
    ((updateMerge (CookieState.mk [] 7 [] 7).cs [((1 : Int), ([5] : Csn))]).2 = true ∧
      syncrepl_updateCookie (CookieState.mk [] 7 [] 7) [((1 : Int), ([5] : Csn))] true =
        { cs := (updateMerge (CookieState.mk [] 7 [] 7).cs [((1 : Int), ([5] : Csn))]).1,
          age := 8,
          syncCookie := (updateMerge (CookieState.mk [] 7 [] 7).cs [((1 : Int), ([5] : Csn))]).1,
          cookieAge := 8 }) :=
  ⟨claim_C10_commit_atomic.1 (CookieState.mk [] 7 [] 7) [((1 : Int), ([5] : Csn))],
    by decide,
    claim_C10_commit_atomic.2.2 (CookieState.mk [] 7 [] 7) [((1 : Int), ([5] : Csn))] (by decide)⟩

/-! ### Modification lists and the access-log builder
(`syncrepl_accesslog_mods`, syncrepl.c:2378-2477)

Each value of the log entry's `reqMod` attribute is a line
`<attr>:<op-char> <value?>`.  The builder resolves the attribute (failing the
whole parse on an unknown one), skips dynamic and excluded attributes, maps
the op character, groups consecutive lines with the same attribute and op
into one modification, rewrites DN-syntax values through the suffix-rewrite
rule, and — at modification creation — rewrites `add` to `replace` and
`delete` to soft-delete for single-valued attributes (ITS#9295). -/

/-- An attribute value (byte string). -/
abbrev Val := List Char

/-- Modification operations (`LDAP_MOD_*` plus the consumer-internal
soft-delete). -/
inductive ModOp where
  | add
  | delete
  | softdel
  | replace
  | increment
deriving DecidableEq, Repr

/-- One `Modifications` node: attribute, operation, the
`SLAP_MOD_INTERNAL` flag used by the conflict resolver, and the value list
(we track the single value array the C code compares with; `sml_nvalues`
stays index-aligned with it throughout). -/
structure Mod where
  desc : List Char
  op : ModOp
  internalFlag : Bool
  vals : List Val
deriving DecidableEq, Repr

/-- What the schema knows about an attribute name: whether `slap_bv2ad`
resolves it, `SLAP_AT_DYNAMIC`, membership in `si_exattrs`,
single-valuedness, and DN syntax (for suffix rewriting). -/
structure AttrInfo where
  valid : Bool
  dynamic : Bool
  excluded : Bool
  singleVal : Bool
  dnSyntax : Bool
deriving DecidableEq, Repr

/-- `ber_bvchr(bv, ':')`: split a line at its first colon. -/
def breakColon : List Char → Option (List Char × List Char)
  | [] => none
  | ch :: t =>
    if ch = ':' then some ([], t)
    else (breakColon t).map (fun p => (ch :: p.1, p.2))

/-- The op-character switch (syncrepl.c:2434-2440). -/
def charOp : Char → Option ModOp
  | '+' => some .add
  | '-' => some .delete
  | '=' => some .replace
  | '#' => some .increment
  | _ => none

/-- The single-valued rewrite applied when a modification is created
(syncrepl.c:2453-2462, ITS#9295). -/
def svAdjust (op : ModOp) (sv : Bool) : ModOp :=
  if sv then
    if op = .add then .replace
    else if op = .delete then .softdel
    else op
  else op

/-- `REWRITE_VAL` (syncrepl.c:2357-2362): rewrite a DN-syntax value through
the replica's suffix-rewrite rule when one is configured, keeping the
original when the rule does not match. -/
def rewriteVal (rw : Option (Val → Option Val)) (ai : AttrInfo) (v : Val) : Val :=
  match rw with
  | some f => if ai.dnSyntax then (match f v with | some v2 => v2 | none => v) else v
  | none => v

/-- One iteration of the `syncrepl_accesslog_mods` loop (syncrepl.c:2395-2474)
on a single `reqMod` value.  The state is the finished modifications plus the
modification currently accumulating values (`mod`); `none` aborts the whole
parse (invalid attribute, rc = -1). -/
def alStep (env : List Char → AttrInfo) (rw : Option (Val → Option Val))
    (st : List Mod × Option Mod) (line : List Char) : Option (List Mod × Option Mod) :=
  match breakColon line with
  | none => some st
  | some (attr, rest) =>
    if attr = [] then some (st.1 ++ st.2.toList, none)
    else
      let ai := env attr
      if ¬ ai.valid then none
      else if ai.dynamic then some st
      else if ai.excluded then some st
      else
        match rest.head? with
        | none => some st
        | some ch =>
          match charOp ch with
          | none => some st
          | some op =>
            let dc : List Mod × Mod :=
              match st.2 with
              | some m =>
                if m.desc = attr ∧ m.op = op then (st.1, m)
                else (st.1 ++ [m], Mod.mk attr (svAdjust op ai.singleVal) false [])
              | none => (st.1, Mod.mk attr (svAdjust op ai.singleVal) false [])
            let cur2 : Mod :=
              match rest.get? 1 with
              | some c2 =>
                if c2 = ' ' then
                  { dc.2 with vals := dc.2.vals ++ [rewriteVal rw ai (rest.drop 2)] }
                else dc.2
              | none => dc.2
            some (dc.1, some cur2)

/-- `syncrepl_accesslog_mods` (syncrepl.c:2378-2477): fold the builder over
all `reqMod` values; `none` models the rc = -1 failure (modlist freed). -/
def syncrepl_accesslog_mods (env : List Char → AttrInfo) (rw : Option (Val → Option Val))
    (vals : List (List Char)) : Option (List Mod) :=
  match vals.foldlM (alStep env rw) (([], none) : List Mod × Option Mod) with
  | none => none
  | some st => some (st.1 ++ st.2.toList)

theorem breakColon_append (attr rest : List Char) (h : ':' ∉ attr) :
    breakColon (attr ++ ':' :: rest) = some (attr, rest) := by
  induction attr with
  | nil => simp [breakColon]
  | cons ch t ih =>
    have hch : ch ≠ ':' := fun he => h (he ▸ List.mem_cons_self _ _)
    have ht : ':' ∉ t := fun hm => h (List.mem_cons_of_mem _ hm)
    simp [breakColon, hch, ih ht]

/-- **C6**.  The access-log modification builder maps the op characters
`+ - = #` to add / delete / replace / increment; a value with an empty
attribute name before the colon resets the accumulator so a new modification
starts; a fresh line `attr:<c> <v>` opens a modification carrying the mapped
operation (adjusted for single-valued attributes) and the (rewritten) value;
and for single-valued attributes an incoming add is emitted as `replace`
and an incoming delete as soft-delete. -/
theorem claim_C6_accesslog_mods (env : List Char → AttrInfo)
    (rw : Option (Val → Option Val)) :
    (charOp '+' = some .add ∧ charOp '-' = some .delete ∧
      charOp '=' = some .replace ∧ charOp '#' = some .increment) ∧
    (svAdjust .add true = .replace ∧ svAdjust .delete true = .softdel ∧
      (∀ op : ModOp, svAdjust op false = op)) ∧
    (∀ (st : List Mod × Option Mod) (rest : List Char),
      alStep env rw st (':' :: rest) = some (st.1 ++ st.2.toList, none)) ∧
    (∀ (done : List Mod) (attr : List Char) (c : Char) (op : ModOp) (v : Val),
      attr ≠ [] → ':' ∉ attr →
      (env attr).valid = true → (env attr).dynamic = false →
      (env attr).excluded = false → charOp c = some op →
      alStep env rw (done, none) (attr ++ ':' :: c :: ' ' :: v) =
        some (done, some (Mod.mk attr (svAdjust op (env attr).singleVal) false
          [rewriteVal rw (env attr) v]))) := by
  refine ⟨⟨rfl, rfl, rfl, rfl⟩, ⟨rfl, rfl, fun op => rfl⟩, ?_, ?_⟩
  · intro st rest
    simp [alStep, breakColon]
  · intro done attr c op v hne hcolon hvalid hdyn hexcl hop
    unfold alStep
    rw [breakColon_append attr (c :: ' ' :: v) hcolon]
    simp [hne, hvalid, hdyn, hexcl, hop, List.get?]

/-- **C6** witness: the theorem applied at a one-attribute schema, with the
fresh-line clause instantiated at `attr = "a"`, `c = '+'`, `v = "v"`. -/
theorem claim_C6_accesslog_mods_witness :
    ((charOp '+' = some .add ∧ charOp '-' = some .delete ∧
      charOp '=' = some .replace ∧ charOp '#' = some .increment) ∧
    (svAdjust .add true = .replace ∧ svAdjust .delete true = .softdel ∧
      (∀ op : ModOp, svAdjust op false = op)) ∧
    (∀ (st : List Mod × Option Mod) (rest : List Char),
      alStep (fun _ => AttrInfo.mk true false false false false) none st (':' :: rest) =
        some (st.1 ++ st.2.toList, none)) ∧
    (∀ (done : List Mod) (attr : List Char) (c : Char) (op : ModOp) (v : Val),
      attr ≠ [] → ':' ∉ attr →
      ((fun _ => AttrInfo.mk true false false false false) attr).valid = true →
      ((fun _ => AttrInfo.mk true false false false false) attr).dynamic = false →
      ((fun _ => AttrInfo.mk true false false false false) attr).excluded = false →
      charOp c = some op →
      alStep (fun _ => AttrInfo.mk true false false false false) none (done, none)
          (attr ++ ':' :: c :: ' ' :: v) =
        some (done, some (Mod.mk attr
          (svAdjust op ((fun _ => AttrInfo.mk true false false false false) attr).singleVal)
          false [rewriteVal none ((fun _ => AttrInfo.mk true false false false false) attr) v])))) ∧
    syncrepl_accesslog_mods (fun _ => AttrInfo.mk true false false false false) none
        [['a', ':', '+', ' ', 'v']] =
      some [Mod.mk ['a'] .add false [['v']]] :=
  ⟨claim_C6_accesslog_mods (fun _ => AttrInfo.mk true false false false false) none,
    by decide⟩

/-! ### Conflict resolver (`compare_vals` / `syncrepl_resolve_cb`,
syncrepl.c:2671-2810)

When a delta-mode modify arrives with a CSN older than the target entry's,
the change log is searched for newer modifications of the same DN; each hit
is replayed against the stale modification list, rewriting it so it commutes
with the already-committed newer changes. -/

/-- The attributes of the local entry (`rx_entry`), keyed by descriptor. -/
abbrev Entry := List (List Char × List Val)

/-- `attr_find` on the entry's attribute list. -/
def lookupAttr : Entry → List Char → Option (List Val)
  | [], _ => none
  | (d, vs) :: t, q => if q = d then some vs else lookupAttr t q

/-- `compare_vals(m1, m2)` (syncrepl.c:2671-2702): remove from `m1`'s value
array every value that also occurs in `m2`'s (the C code walks `m2`'s
values, deleting every match from `m1` in place). -/
def compare_vals (m1vals m2vals : List Val) : List Val :=
  m2vals.foldl (fun acc v2 => acc.filter (fun v1 => v1 != v2)) m1vals

/-- The body of the `syncrepl_resolve_cb` inner loop (syncrepl.c:2715-2803)
for one pairing of an incoming stale modification `m1` with a newer
committed modification `m2`: returns the rewritten `m1`, or `none` when it
is dropped.  `sv` tells which attributes are single-valued, `e` is the
current entry (for the ITS#9751 delete-all conversion). -/
def resolve_pair (sv : List Char → Bool) (e : Entry) (m2 m1 : Mod) : Option Mod :=
  if m1.desc ≠ m2.desc then some m1
  else
    let step1 : Option Mod :=
      if m2.op = .delete ∨ m2.op = .softdel ∨ m2.op = .replace then
        let numvals := if m2.op = .replace then 0 else m2.vals.length
        if numvals = 0 then none
        else if m1.op = .delete ∨ m1.op = .softdel then
          if m1.vals.length = 0 then some { m1 with internalFlag := true }
          else
            let v := compare_vals m1.vals m2.vals
            if v.length = 0 then none else some { m1 with vals := v }
        else if m1.op = .add then
          let v := compare_vals m1.vals m2.vals
          if v.length = 0 then none else some { m1 with vals := v }
        else some m1
      else some m1
    match step1 with
    | none => none
    | some m1' =>
      if m2.op = .add ∨ m2.op = .replace then
        if sv m2.desc then none
        else
          let conv : Option Mod :=
            if m1'.op = .delete then
              if m2.op = .replace then none
              else if m1'.vals.length = 0 then
                match lookupAttr e m1'.desc with
                | none => none
                | some av => some { m1' with vals := av }
              else some m1'
            else some m1'
          match conv with
          | none => none
          | some m1'' =>
            let v := compare_vals m1''.vals m2.vals
            if v.length = 0 then none else some { m1'' with vals := v }
      else some m1'

/-- The full resolver loop (syncrepl.c:2715-2804): every newer modification
is replayed over the whole surviving incoming list. -/
def syncrepl_resolve (sv : List Char → Bool) (e : Entry)
    (oldmods newmods : List Mod) : List Mod :=
  newmods.foldl (fun acc m2 => acc.filterMap (resolve_pair sv e m2)) oldmods

/-- **C3**.  The conflict resolver rewrites a stale `m1` against a newer
`m2` on the same attribute per the spec's truth table: a newer delete-all
(or replace, treated as delete-all) drops `m1`; delete-X against delete-X
removes the common values from `m1` and drops it when emptied; a newer
add-X against an older delete-all converts the delete into an
explicit-values delete built from the current entry with X removed (dropped
when the attribute is absent or emptied); add against add drops the common
values, dropping `m1` entirely when the attribute is single-valued. -/
theorem claim_C3_resolve_truth_table (sv : List Char → Bool) (e : Entry) :
    (∀ m1 m2 : Mod, m1.desc = m2.desc →
      (((m2.op = .delete ∨ m2.op = .softdel) ∧ m2.vals = []) ∨ m2.op = .replace) →
      resolve_pair sv e m2 m1 = none) ∧
    (∀ m1 m2 : Mod, m1.desc = m2.desc → m1.op = .delete → m2.op = .delete →
      m1.vals ≠ [] → m2.vals ≠ [] →
      resolve_pair sv e m2 m1 =
        (if (compare_vals m1.vals m2.vals).length = 0 then none
         else some { m1 with vals := compare_vals m1.vals m2.vals })) ∧
    (∀ m1 m2 : Mod, m1.desc = m2.desc → m1.op = .delete → m1.vals = [] →
      m2.op = .add → sv m2.desc = false →
      resolve_pair sv e m2 m1 =
        (match lookupAttr e m1.desc with
         | none => none
         | some av =>
           if (compare_vals av m2.vals).length = 0 then none
           else some { m1 with vals := compare_vals av m2.vals })) ∧
    (∀ m1 m2 : Mod, m1.desc = m2.desc → m1.op = .add → m2.op = .add →
      resolve_pair sv e m2 m1 =
        (if sv m2.desc then none
         else if (compare_vals m1.vals m2.vals).length = 0 then none
         else some { m1 with vals := compare_vals m1.vals m2.vals })) := by
  refine ⟨?_, ?_, ?_, ?_⟩
  · intro m1 m2 hd hcase
    rcases hcase with ⟨hop, hvals⟩ | hop
    · rcases hop with h | h <;>
        simp [resolve_pair, hd, h, hvals]
    · simp [resolve_pair, hd, hop]
  · intro m1 m2 hd h1 h2 hv1 hv2
    have hlen1 : m1.vals.length ≠ 0 := by
      intro h
      exact hv1 (List.length_eq_zero.mp h)
    have hlen2 : m2.vals.length ≠ 0 := by
      intro h
      exact hv2 (List.length_eq_zero.mp h)
    by_cases hcv : (compare_vals m1.vals m2.vals).length = 0 <;>
      simp [resolve_pair, hd, h1, h2, hlen1, hlen2, hcv]
  · intro m1 m2 hd h1 hv1 h2 hsv
    rw [hd]
    cases hla : lookupAttr e m2.desc with
    | none => simp [resolve_pair, hd, h1, hv1, h2, hsv, hla]
    | some av =>
      by_cases hcv : compare_vals av m2.vals = []
      · simp [resolve_pair, hd, h1, hv1, h2, hsv, hla, hcv]
      · simp [resolve_pair, hd, h1, hv1, h2, hsv, hla, hcv]
  · intro m1 m2 hd h1 h2
    by_cases hsv : sv m2.desc
    · simp [resolve_pair, hd, h1, h2, hsv]
    · by_cases hcv : (compare_vals m1.vals m2.vals).length = 0 <;>
        simp [resolve_pair, hd, h1, h2, hsv, hcv]

/-- **C3** witness: the four truth-table rows of the theorem instantiated at
concrete modifications over the attribute `"a"` (multi-valued schema,
entry carrying `a: {x, y}`). -/
theorem claim_C3_resolve_truth_table_witness :
    (['a'] : List Char) = ['a'] ∧
    resolve_pair (fun _ => false) [(['a'], [['x'], ['y']])]
      (Mod.mk ['a'] .replace false []) (Mod.mk ['a'] .add false [['x']]) = none ∧
    resolve_pair (fun _ => false) [(['a'], [['x'], ['y']])]
      (Mod.mk ['a'] .delete false [['x']]) (Mod.mk ['a'] .delete false [['x'], ['y']]) =
      some (Mod.mk ['a'] .delete false [['y']]) ∧
    resolve_pair (fun _ => false) [(['a'], [['x'], ['y']])]
      (Mod.mk ['a'] .add false [['x']]) (Mod.mk ['a'] .delete false []) =
      some (Mod.mk ['a'] .delete false [['y']]) ∧
    resolve_pair (fun _ => false) [(['a'], [['x'], ['y']])]
      (Mod.mk ['a'] .add false [['x']]) (Mod.mk ['a'] .add false [['x']]) = none := by
  have h := claim_C3_resolve_truth_table (fun _ => false)
    ([(['a'], [['x'], ['y']])] : Entry)
  refine ⟨rfl, ?_, ?_, ?_, ?_⟩
  · exact h.1 (Mod.mk ['a'] .add false [['x']]) (Mod.mk ['a'] .replace false [])
      rfl (Or.inr rfl)
  · have := h.2.1 (Mod.mk ['a'] .delete false [['x'], ['y']])
      (Mod.mk ['a'] .delete false [['x']]) rfl rfl rfl (by decide) (by decide)
    rw [this]
    decide
  · have := h.2.2.1 (Mod.mk ['a'] .delete false [])
      (Mod.mk ['a'] .add false [['x']]) rfl rfl rfl rfl rfl
    rw [this]
    decide
  · have := h.2.2.2 (Mod.mk ['a'] .add false [['x']])
      (Mod.mk ['a'] .add false [['x']]) rfl rfl rfl
    rw [this]
    decide

/-! ### Present set (`presentlist_insert`, syncrepl.c:4025-4065)

UUIDs are 16 raw octets; the first two select one of 65,536 buckets, the
remaining 14 form the key of a per-bucket AVL tree.  `ldap_avl_insert` with
`ldap_avl_dup_error` (libldap, not under src/) is modelled from the spec as
set insertion that reports whether the element was newly added. -/

/-- The present list: (2-octet bucket key, 14-octet remainder) pairs. -/
abbrev PresentList := List (List Nat × List Nat)

/-- `presentlist_insert` (syncrepl.c:4025-4065): returns the updated set and
1 (`true`) iff the UUID was newly inserted. -/
def presentlist_insert (pl : PresentList) (u : List Nat) : PresentList × Bool :=
  let key := (u.take 2, u.drop 2)
  if key ∈ pl then (pl, false) else (key :: pl, true)

/-- **C8**.  Present-set insertion is an idempotency gate: inserting a UUID
not yet present returns `true`, and any subsequent insert of the same UUID
returns `false` and leaves the set unchanged — so a refresh entry
re-transmitted with the same UUID (syncrepl_entry, syncrepl.c:4150-4154)
is not recorded as a new insertion a second time. -/
theorem claim_C8_presentlist_gate :
    (∀ (pl : PresentList) (u : List Nat),
      (u.take 2, u.drop 2) ∉ pl → (presentlist_insert pl u).2 = true) ∧
    (∀ (pl : PresentList) (u : List Nat),
      presentlist_insert (presentlist_insert pl u).1 u =
        ((presentlist_insert pl u).1, false)) := by
  constructor
  · intro pl u h
    simp [presentlist_insert, h]
  · intro pl u
    by_cases h : (u.take 2, u.drop 2) ∈ pl
    · simp [presentlist_insert, h]
    · simp [presentlist_insert, h]

/-- **C8** witness: first insert of a fresh UUID into the empty set returns
`true`; re-inserting it returns `false` with the set unchanged. -/
theorem claim_C8_presentlist_gate_witness :
    (([0, 1], ([] : List Nat)) ∉ ([] : PresentList) ∧
      (presentlist_insert [] [0, 1]).2 = true) ∧
    presentlist_insert (presentlist_insert [] [0, 1]).1 [0, 1] =
      ((presentlist_insert [] [0, 1]).1, false) :=
  ⟨⟨by decide, claim_C8_presentlist_gate.1 [] [0, 1] (by decide)⟩,
    claim_C8_presentlist_gate.2 [] [0, 1]⟩

/-! ### `syncrepl_op_modify` (syncrepl.c:2835-3038): the multi-provider
modify interceptor.  The incoming modification's `entryCSN` is checked
against the committed vector and then against the local entry's `entryCSN`;
an equal match means the modification was already committed. -/

/-- Decision of the interceptor before any backend write. -/
inductive ModifyDecision where
  | reject (err : Nat)
  | continueChain
  | proceed
deriving DecidableEq, Repr

/-- LDAP resultCode `typeOrValueExists`. -/
def LDAP_TYPE_OR_VALUE_EXISTS : Nat := 20

/-- The decision logic of `syncrepl_op_modify` (syncrepl.c:2867-2908):
`entry = none` models `overlay_entry_get_ov` failing (pass through);
`some none` an entry without `entryCSN` (treated as older, mod is newer);
`some (some ecsn)` the stored `entryCSN`. -/
def syncrepl_op_modify_check (committed : List SC) (modCSN : Csn) (sid : Int)
    (entry : Option (Option Csn)) : ModifyDecision :=
  if (check_csn_age modCSN sid committed 0).1 = .old then
    .reject LDAP_TYPE_OR_VALUE_EXISTS
  else
    match entry with
    | none => .continueChain
    | some eattr =>
      let m : Int := match eattr with | some ecsn => bvcmp modCSN ecsn | none => 1
      if m = 0 then .reject LDAP_TYPE_OR_VALUE_EXISTS else .proceed

/-- A rejected operation performs no write: only non-rejected decisions
reach the backend. -/
def applyDecision {α : Type} (d : ModifyDecision) (applyFn : α → α) (e : α) : α :=
  match d with
  | .reject _ => e
  | _ => applyFn e

/-- **C9**.  When the incoming modification's `entryCSN` compares equal to
the `entryCSN` stored on the local entry, the interceptor terminates the
operation reporting `LDAP_TYPE_OR_VALUE_EXISTS` (so the access log records
the collision) and the local entry is left unchanged. -/
theorem claim_C9_equal_csn_collision (committed : List SC) (modCSN ecsn : Csn)
    (sid : Int) (h : bvcmp modCSN ecsn = 0) :
    syncrepl_op_modify_check committed modCSN sid (some (some ecsn)) =
      .reject LDAP_TYPE_OR_VALUE_EXISTS ∧
    (∀ (applyFn : Entry → Entry) (e : Entry),
      applyDecision (syncrepl_op_modify_check committed modCSN sid (some (some ecsn)))
        applyFn e = e) := by
  have hdec : syncrepl_op_modify_check committed modCSN sid (some (some ecsn)) =
      .reject LDAP_TYPE_OR_VALUE_EXISTS := by
    rw [syncrepl_op_modify_check]
    by_cases hage : (check_csn_age modCSN sid committed 0).1 = .old
    · rw [if_pos hage]
    · rw [if_neg hage]
      simp [h]
  exact ⟨hdec, fun applyFn e => by rw [hdec]; rfl⟩

/-- **C9** witness: the theorem applied with an empty committed vector and
incoming `entryCSN [3]` equal to the entry's stored `entryCSN [3]`. -/
theorem claim_C9_equal_csn_collision_witness :
    bvcmp [3] [3] = 0 ∧
    syncrepl_op_modify_check [] [3] 1 (some (some [3])) =
      .reject LDAP_TYPE_OR_VALUE_EXISTS ∧
    applyDecision (syncrepl_op_modify_check [] [3] 1 (some (some [3])))
      (fun e => ((['x'], [[' ']]) :: e)) [] = [] :=
  ⟨by decide,
    (claim_C9_equal_csn_collision [] [3] [3] 1 (by decide)).1,
    (claim_C9_equal_csn_collision [] [3] [3] 1 (by decide)).2
      (fun e => ((['x'], [[' ']]) :: e)) []⟩

end Syncrepl
